import Mathlib

/-!
Verification of the location-resolution core of the `here-to-there` repository
(`src/detectors.ts`, `src/utils.ts`, `src/actors.ts`).

The TypeScript source is shallowly embedded: every function of the repository
that the claims mention is translated into an executable Lean definition of the
same name.  Effectful platform calls are made explicit:

* the filesystem (`fs.stat`, `fs.readdir`) becomes an `FS` record of pure
  query functions, where `none` models a thrown filesystem error;
* the WHATWG `URL` constructor and `decodeURIComponent` (the only pieces of
  the JavaScript platform the core calls) are modelled by executable parsers
  below, `none` modelling a thrown `TypeError` / `URIError`.

Modelling scope of the platform functions (documented divergences, none of
which is exercised by any theorem or counterexample in this file): the URL
model does not perform dot-segment normalization, IPv6 host parsing, or
percent-decoding inside hosts; `trim`/`toLowerCase` handle the ASCII and
Latin-1 whitespace/letters that the JavaScript versions handle on such input.
-/

/-- JavaScript whitespace recognised by `String.prototype.trim`
(ASCII whitespace plus NBSP and BOM). -/
def isJsWs (c : Char) : Bool :=
  c = ' ' || c = '\t' || c = '\n' || c = '\x0d' || c = '\x0b' || c = '\x0c' ||
  c = '\u00a0' || c = '\ufeff'

/-- `String.prototype.trim` on the character list. -/
def jsTrimList (cs : List Char) : List Char :=
  ((cs.dropWhile isJsWs).reverse.dropWhile isJsWs).reverse

/-- `String.prototype.trim`. -/
def jsTrim (s : String) : String := String.mk (jsTrimList s.data)

/-- ASCII lower-casing of one character (`String.prototype.toLowerCase`
restricted to ASCII, which is all the source compares against). -/
def lowerChar (c : Char) : Char :=
  if 'A' ≤ c && c ≤ 'Z' then Char.ofNat (c.toNat + 32) else c

/-- `String.prototype.toLowerCase`. -/
def jsToLower (s : String) : String := String.mk (s.data.map lowerChar)

/-- `String.prototype.startsWith`. -/
def jsStartsWith (s pat : String) : Bool := pat.data.isPrefixOf s.data

/-- Does `pat` occur as a contiguous sublist of the second list? -/
def listContains (pat : List Char) : List Char → Bool
  | [] => pat.isPrefixOf ([] : List Char)
  | c :: rest => pat.isPrefixOf (c :: rest) || listContains pat rest

/-- `String.prototype.includes`. -/
def containsSubstr (s pat : String) : Bool := listContains pat.data s.data

/-- Value of a hexadecimal digit, as used by percent-decoding (digit codes
48-57, lower-case letter codes 97-102, upper-case letter codes 65-70). -/
def hexVal (c : Char) : Option Nat :=
  let n := c.toNat
  if 48 ≤ n && n ≤ 57 then some (n - 48)
  else if 97 ≤ n && n ≤ 102 then some (n - 87)
  else if 65 ≤ n && n ≤ 70 then some (n - 55)
  else none

/-- The UTF-8 encoding of one Unicode scalar value, as a byte list. -/
def charUtf8Bytes (c : Char) : List Nat :=
  let n := c.toNat
  if n < 0x80 then [n]
  else if n < 0x800 then [0xC0 + n / 64, 0x80 + n % 64]
  else if n < 0x10000 then [0xE0 + n / 4096, 0x80 + n / 64 % 64, 0x80 + n % 64]
  else [0xF0 + n / 262144, 0x80 + n / 4096 % 64, 0x80 + n / 64 % 64, 0x80 + n % 64]

/-- Is `b` a UTF-8 continuation byte `10xxxxxx`? -/
def isCont (b : Nat) : Bool := 0x80 ≤ b && b ≤ 0xBF

/-- Strict UTF-8 decoding of a byte list (rejecting overlong forms,
surrogates and values above `U+10FFFF`), as `decodeURIComponent` performs
after percent-removal.  The `fuel` argument only drives the structural
recursion: every step consumes at least one byte and one unit of fuel, so
`fuel = length` (as supplied by `utf8DecodeList` below) never runs out. -/
def utf8DecodeFuel : Nat → List Nat → Option (List Char)
  | _, [] => some []
  | 0, _ :: _ => none
  | fuel + 1, b :: rest =>
    if b < 0x80 then
      (utf8DecodeFuel fuel rest).map (Char.ofNat b :: ·)
    else if 0xC2 ≤ b && b ≤ 0xDF then
      match rest with
      | b2 :: rest2 =>
        if isCont b2 then
          (utf8DecodeFuel fuel rest2).map (Char.ofNat ((b - 0xC0) * 64 + (b2 - 0x80)) :: ·)
        else none
      | [] => none
    else if 0xE0 ≤ b && b ≤ 0xEF then
      match rest with
      | b2 :: b3 :: rest2 =>
        let lo2 := if b = 0xE0 then 0xA0 else 0x80
        let hi2 := if b = 0xED then 0x9F else 0xBF
        if lo2 ≤ b2 && b2 ≤ hi2 && isCont b3 then
          (utf8DecodeFuel fuel rest2).map
            (Char.ofNat ((b - 0xE0) * 4096 + (b2 - 0x80) * 64 + (b3 - 0x80)) :: ·)
        else none
      | _ => none
    else if 0xF0 ≤ b && b ≤ 0xF4 then
      match rest with
      | b2 :: b3 :: b4 :: rest2 =>
        let lo2 := if b = 0xF0 then 0x90 else 0x80
        let hi2 := if b = 0xF4 then 0x8F else 0xBF
        if lo2 ≤ b2 && b2 ≤ hi2 && isCont b3 && isCont b4 then
          (utf8DecodeFuel fuel rest2).map
            (Char.ofNat
              ((b - 0xF0) * 262144 + (b2 - 0x80) * 4096 + (b3 - 0x80) * 64 + (b4 - 0x80)) :: ·)
        else none
      | _ => none
    else none

/-- Strict UTF-8 decoding of a byte list; `none` models a thrown
`URIError`. -/
def utf8DecodeList (l : List Nat) : Option (List Char) := utf8DecodeFuel l.length l

/-- Turn a percent-encoded character list into the underlying byte stream:
`%XY` becomes the byte `0xXY` (failing on a malformed escape), every other
character contributes its UTF-8 bytes. -/
def percentDecodeChars : List Char → Option (List Nat)
  | [] => some []
  | c :: rest =>
    if c = '%' then
      match rest with
      | c1 :: c2 :: rest2 =>
        match hexVal c1, hexVal c2 with
        | some h1, some h2 => (percentDecodeChars rest2).map ((16 * h1 + h2) :: ·)
        | _, _ => none
      | _ => none
    else (percentDecodeChars rest).map (charUtf8Bytes c ++ ·)

/-- Model of JavaScript `decodeURIComponent`; `none` models a thrown
`URIError`. -/
def decodeURIComponent (s : String) : Option String :=
  ((percentDecodeChars s.data).bind utf8DecodeList).map String.mk

theorem decodeURIComponent_example :
    decodeURIComponent "/Users/a%20b/x.txt" = some "/Users/a b/x.txt" := by decide

/-! ## Model of the WHATWG `URL` constructor

Only the three properties the source reads (`hostname`, `pathname`, and the
scheme implicitly) are modelled.  `none` models a thrown `TypeError`
(`Invalid URL`). -/

/-- The observable part of a parsed URL. -/
structure UrlModel where
  scheme : String
  hostname : String
  pathname : String
deriving Repr, DecidableEq

/-- Characters allowed in a URL scheme after the first letter. -/
def isSchemeChar (c : Char) : Bool :=
  c.isAlpha || c.isDigit || c = '+' || c = '-' || c = '.'

/-- Slash or backslash (the WHATWG parser treats both as separators in
special-scheme URLs). -/
def isSlash (c : Char) : Bool := c = '/' || c = '\\'

/-- Forbidden host code points of the WHATWG URL standard (the model also
rejects `%`, i.e. it does not model percent-encoded hosts). -/
def forbiddenHostChar (c : Char) : Bool :=
  c = '\x00' || c = ' ' || c = '#' || c = '%' || c = '/' || c = ':' || c = '<' ||
  c = '>' || c = '?' || c = '@' || c = '[' || c = '\\' || c = ']' || c = '^' ||
  c = '|' || c = '"'

/-- Extract the host from an authority component: drop the userinfo (up to
the last `@`), split off a `:port` requiring it to be numeric, validate and
lower-case the host characters. -/
def parseHostPort (a : List Char) : Option (List Char) :=
  let hp := (a.reverse.takeWhile (fun c => c != '@')).reverse
  let host := hp.takeWhile (fun c => c != ':')
  let portOk := match hp.dropWhile (fun c => c != ':') with
    | [] => true
    | _ :: digits => digits.all Char.isDigit
  if portOk && host.all (fun c => !forbiddenHostChar c) then some (host.map lowerChar)
  else none

/-- Characters the WHATWG path serializer percent-encodes (the path
percent-encode set together with controls and non-ASCII). -/
def pathEncodeChar (c : Char) : Bool :=
  c.toNat < 0x20 || c.toNat ≥ 0x7F || c = ' ' || c = '"' || c = '<' || c = '>' ||
  c = Char.ofNat 0x60 || c = Char.ofNat 0x7b || c = Char.ofNat 0x7d

/-- Upper-case hexadecimal digit. -/
def hexDigitChar (n : Nat) : Char :=
  if n < 10 then Char.ofNat ('0'.toNat + n) else Char.ofNat ('A'.toNat + n - 10)

/-- `%XY` escape of one byte. -/
def percentEscapeByte (b : Nat) : List Char :=
  ['%', hexDigitChar (b / 16), hexDigitChar (b % 16)]

/-- Percent-encode a serialized path. -/
def pathEncode (cs : List Char) : List Char :=
  cs.flatMap fun c =>
    if pathEncodeChar c then (charUtf8Bytes c).flatMap percentEscapeByte else [c]

/-- Not a path terminator (`?` starts the query, `#` the fragment). -/
def notPathEnd (c : Char) : Bool := c != '?' && c != '#'

/-- Serialize the `pathname` of an authority-style URL from the characters
following the authority: cut at `?`/`#`, normalize backslashes, an empty
path serializes as `/`. -/
def makePathname (rest : List Char) : List Char :=
  let raw := (rest.takeWhile notPathEnd).map (fun c => if c = '\\' then '/' else c)
  pathEncode (if raw = [] then ['/'] else raw)

/-- Split a candidate scheme from the input; the scheme must start with a
letter and be terminated by `:`.  Returns the lower-cased scheme and the
remainder. -/
def splitScheme (cs : List Char) : Option (String × List Char) :=
  let sch := cs.takeWhile isSchemeChar
  match sch.head? with
  | some c0 =>
    if c0.isAlpha then
      match cs.dropWhile isSchemeChar with
      | ':' :: r => some (String.mk (sch.map lowerChar), r)
      | _ => none
    else none
  | none => none

/-- Authority boundary: authority runs until a slash, `?` or `#`. -/
def notAuthorityEnd (c : Char) : Bool := !(isSlash c || c == '?' || c == '#')

/-- Input preprocessing of the WHATWG parser: remove tabs and newlines
everywhere, then strip C0-control/space characters from both ends. -/
def urlPre (l : List Char) : List Char :=
  (((l.filter fun c => c != '\t' && c != '\n' && c != '\x0d').dropWhile
      fun c => c.toNat ≤ 0x20).reverse.dropWhile fun c => c.toNat ≤ 0x20).reverse

/-- The `file:` scheme states of the parser. -/
def parseFileUrl (r : List Char) : Option UrlModel :=
  match r with
  | '/' :: '/' :: rest =>
    let authority := rest.takeWhile notAuthorityEnd
    let after := rest.dropWhile notAuthorityEnd
    match parseHostPort authority with
    | none => none
    | some host =>
      let host := if host = "localhost".data then [] else host
      some ⟨"file", String.mk host, String.mk (makePathname after)⟩
  | _ =>
    let raw := (r.takeWhile notPathEnd).map fun c => if c = '\\' then '/' else c
    let raw := match raw with
      | '/' :: _ => raw
      | _ => '/' :: raw
    some ⟨"file", "", String.mk (pathEncode raw)⟩

/-- The non-`file` special-scheme states of the parser (slash-lenient
authority, nonempty host required). -/
def parseHttpUrl (sch : String) (r : List Char) : Option UrlModel :=
  let r1 := r.dropWhile isSlash
  let authority := r1.takeWhile notAuthorityEnd
  let after := r1.dropWhile notAuthorityEnd
  match parseHostPort authority with
  | none => none
  | some host =>
    if host = [] then none
    else some ⟨sch, String.mk host, String.mk (makePathname after)⟩

/-- Model of `new URL(s)` for absolute URLs.  Follows the WHATWG parser on
the fragment the source exercises: tab/newline stripping, C0/space edge
trimming, scheme detection, slash-lenient authority parsing for the special
schemes, host validation, `localhost` erasure for `file:`, and `pathname`
serialization with percent-encoding. -/
def urlParse (s : String) : Option UrlModel :=
  match splitScheme (urlPre s.data) with
  | none => none
  | some (sch, r) =>
    if sch = "file" then parseFileUrl r
    else if sch = "http" || sch = "https" || sch = "ws" || sch = "wss" || sch = "ftp" then
      parseHttpUrl sch r
    else some ⟨sch, "", String.mk (r.takeWhile notPathEnd)⟩

theorem urlParse_file_example :
    urlParse "file:///Users/a b/x.txt" =
      some ⟨"file", "", "/Users/a%20b/x.txt"⟩ := by decide

theorem urlParse_file_host_example :
    urlParse "file://server/share/x.txt" = some ⟨"file", "server", "/share/x.txt"⟩ := by
  decide

theorem urlParse_bad_host_example : urlParse "file://a b/c" = none := by decide

theorem urlParse_http_example :
    urlParse "HTTP://x" = some ⟨"http", "x", "/"⟩ := by decide

/-! ## Embedded source: `src/detectors.ts` -/

/-- `normalizeFileManagerResult` (detectors.ts, lines 90-101): trim, map the
empty/`"missing value"` results to `""`, decode `file://` URLs through
`decodeURIComponent(new URL(trimmed).pathname)` with the whole attempt
wrapped in a `try` that falls back to the trimmed string. -/
def normalizeFileManagerResult (result : String) : String :=
  if jsTrim result = "" || jsTrim result = "missing value" then ""
  else if jsStartsWith (jsTrim result) "file://" then
    match (urlParse (jsTrim result)).bind fun u => decodeURIComponent u.pathname with
    | some p => p
    | none => jsTrim result
  else jsTrim result

/-- `isProbablyUrlPath` (detectors.ts, lines 103-108). -/
def isProbablyUrlPath (value : String) : Bool :=
  let lower := jsToLower value
  jsStartsWith lower "http://" || jsStartsWith lower "https://" ||
  containsSubstr lower "http:" || containsSubstr lower "https:"

/-- The filesystem and home-directory environment the resolution core reads.
`cloudEntries` models `readdir(~/Library/CloudStorage, { withFileTypes })`
as a list of `(name, isDirectory)` pairs, `none` modelling a thrown error.
`statIsFile` models `stat(path).isFile()`, `none` modelling a thrown error
(missing path) and `some b` a successful stat of a file (`b = true`) or
directory/other (`b = false`). -/
structure FS where
  home : String
  cloudEntries : Option (List (String × Bool))
  statIsFile : String → Option Bool

/-- `path.join` on already-clean segments (the model joins with `/` and does
not re-normalize, which coincides with Node's join on the slash-free decoded
segments the mapper produces). -/
def pathJoin (parts : List String) : String := String.intercalate "/" parts

/-- `getOneDriveRoots` (detectors.ts, lines 110-120): list the CloudStorage
container, keep directories whose name starts with `OneDrive`, return their
absolute paths; an unreadable container yields `[]`. -/
def getOneDriveRoots (fs : FS) : List String :=
  let cloudStoragePath := pathJoin [fs.home, "Library", "CloudStorage"]
  match fs.cloudEntries with
  | none => []
  | some entries =>
    (entries.filter fun e => e.2 && jsStartsWith e.1 "OneDrive").map
      fun e => pathJoin [cloudStoragePath, e.1]

/-- `decodeSegment` (detectors.ts, lines 132-144): `+` becomes space, then
`decodeURIComponent` is applied at most twice, stopping early when a pass is
the identity or throws. -/
def decodeSegment (value : String) : String :=
  let d0 := String.mk (value.data.map fun c => if c = '+' then ' ' else c)
  match decodeURIComponent d0 with
  | none => d0
  | some d1 =>
    if d1 = d0 then d0
    else
      match decodeURIComponent d1 with
      | none => d1
      | some d2 => if d2 = d1 then d1 else d2

/-- Does the date pattern `\d{4}\.\d{2}\.\d{2}` match at position `i`? -/
def dateMatchAt (cs : List Char) (i : Nat) : Bool :=
  let w := (cs.drop i).take 10
  w.length = 10 &&
  ((w.take 4).all Char.isDigit) &&
  ((w.drop 4).take 1 = ['.']) &&
  (((w.drop 5).take 2).all Char.isDigit) &&
  ((w.drop 7).take 1 = ['.']) &&
  (((w.drop 8).take 2).all Char.isDigit)

/-- Index of the leftmost match of `/\d{4}\.\d{2}\.\d{2}/`, as JavaScript
`String.prototype.match` reports it. -/
def firstDateIdx (s : String) : Option Nat :=
  (List.range s.data.length).find? fun i => dateMatchAt s.data i

/-- Index of the leftmost match of `/\d/`. -/
def firstDigitIdx (s : String) : Option Nat :=
  s.data.findIdx? Char.isDigit

/-- The segment prefix before position `i`, trimmed (`slice(0, i).trim()`). -/
def sliceTrimBefore (s : String) (i : Nat) : String := jsTrim (String.mk (s.data.take i))

/-- The segment suffix from position `i` on, trimmed (`slice(i).trim()`). -/
def sliceTrimFrom (s : String) (i : Nat) : String := jsTrim (String.mk (s.data.drop i))

/-- The variant construction of `mapSharePointUrlToLocalPath` (detectors.ts,
lines 159-180), embedded with JavaScript truthiness made explicit: the
as-is sequence always; a date-based split of the last segment when the date
regex matches at a truthy (nonzero) index and both trimmed parts are
nonempty; otherwise, when the date regex does not match at all, the same
split at the first digit. -/
def relativeVariants (relativeSegments : List String) : List (List String) :=
  match relativeSegments.getLast? with
  | none => [relativeSegments]
  | some lastSegment =>
    if lastSegment = "" then [relativeSegments]
    else
      match firstDateIdx lastSegment with
      | some i =>
        if i ≠ 0 then
          if sliceTrimBefore lastSegment i ≠ "" && sliceTrimFrom lastSegment i ≠ "" then
            [relativeSegments, relativeSegments.dropLast ++
              [sliceTrimBefore lastSegment i, sliceTrimFrom lastSegment i]]
          else [relativeSegments]
        else [relativeSegments]
      | none =>
        match firstDigitIdx lastSegment with
        | some i =>
          if i ≠ 0 then
            if sliceTrimBefore lastSegment i ≠ "" && sliceTrimFrom lastSegment i ≠ "" then
              [relativeSegments, relativeSegments.dropLast ++
                [sliceTrimBefore lastSegment i, sliceTrimFrom lastSegment i]]
            else [relativeSegments]
          else [relativeSegments]
        | none => [relativeSegments]

/-- The two candidate paths tried for one root and one variant
(detectors.ts, line 185). -/
def candidatesFor (root : String) (variant : List String) : List String :=
  [pathJoin (root :: "Documents" :: variant), pathJoin (root :: variant)]

/-- The innermost candidate loop (detectors.ts, lines 186-193): return the
first candidate that stats successfully as a regular file; stat errors are
swallowed. -/
def tryCandidates (fs : FS) : List String → Option String
  | [] => none
  | c :: rest =>
    match fs.statIsFile c with
    | some true => some c
    | _ => tryCandidates fs rest

/-- The variant loop for one root (detectors.ts, line 184). -/
def searchVariants (fs : FS) (root : String) : List (List String) → Option String
  | [] => none
  | v :: vs =>
    match tryCandidates fs (candidatesFor root v) with
    | some c => some c
    | none => searchVariants fs root vs

/-- The root loop (detectors.ts, line 183). -/
def searchRoots (fs : FS) (vars : List (List String)) : List String → Option String
  | [] => none
  | root :: rs =>
    match searchVariants fs root vars with
    | some c => some c
    | none => searchRoots fs vars rs

/-- The URL-path-to-segment step of the mapper (detectors.ts, lines
146-157): split the pathname on `/`, drop empty segments, decode each, find
the first segment case-insensitively equal to `documents`, take what
follows, and drop one further leading `documents`. -/
def sharePointRelativeSegments (pathname : String) : Option (List String) :=
  let segments := ((pathname.data.splitOn '/').filter (· ≠ [])).map
    fun part => decodeSegment (String.mk part)
  match segments.findIdx? (fun s => jsToLower s = "documents") with
  | none => none
  | some docsIndex =>
    let rel := segments.drop (docsIndex + 1)
    let rel := match rel.head? with
      | some s => if jsToLower s = "documents" then rel.tail else rel
      | none => rel
    some rel

/-- `mapSharePointUrlToLocalPath` (detectors.ts, lines 122-198). -/
def mapSharePointUrlToLocalPath (fs : FS) (urlValue : String) : Option String :=
  match urlParse urlValue with
  | none => none
  | some parsed =>
    if !containsSubstr parsed.hostname "sharepoint.com" then none
    else
      match sharePointRelativeSegments parsed.pathname with
      | none => none
      | some relativeSegments =>
        searchRoots fs (relativeVariants relativeSegments) (getOneDriveRoots fs)

/-- `getDocumentAppPath` (detectors.ts, lines 483-489), parameterized by the
raw text the automation executor returned for the app's script; the thrown
`returned an empty path` error is modelled as `none`. -/
def getDocumentAppPath (rawResult : String) : Option String :=
  let normalized := normalizeFileManagerResult rawResult
  if normalized = "" then none else some normalized

/-- `resolveDocumentAppPathForOpen` (detectors.ts, lines 491-498). -/
def resolveDocumentAppPathForOpen (fs : FS) (rawResult : String) :
    Option (String × String) :=
  match getDocumentAppPath rawResult with
  | none => none
  | some documentPath =>
    if isProbablyUrlPath documentPath then
      some (documentPath, (mapSharePointUrlToLocalPath fs documentPath).getD "")
    else some (documentPath, documentPath)

/-- Node's `path.posix.dirname`. -/
def dirname (p : String) : String :=
  let cs := p.data
  let hasRoot := cs.head? = some '/'
  let r1 := cs.reverse.dropWhile (fun c => c = '/')
  if r1.isEmpty then (if hasRoot then "/" else ".")
  else
    let r2 := r1.dropWhile (fun c => c ≠ '/')
    if r2.length ≤ 1 then (if hasRoot then "/" else ".")
    else if hasRoot && r2.length = 2 then "//"
    else String.mk (cs.take (r2.length - 1))

/-- `resolveOpenPath` (detectors.ts, lines 500-509): empty input is returned
as `""`; a path that stats as a regular file is replaced by its directory;
stat errors and non-files leave the path unchanged. -/
def resolveOpenPath (fs : FS) (pathValue : String) : String :=
  if pathValue = "" then ""
  else
    match fs.statIsFile pathValue with
    | some true => dirname pathValue
    | _ => pathValue

/-! ## Embedded source: `src/utils.ts` -/

/-- What `spawnSync("osascript", ...)` returns: the captured output
streams (`null` streams modelled as `""`). -/
structure SpawnResult where
  stdout : String
  stderr : String

/-- `runAppleScript` (utils.ts, lines 3-14), with the process state made
explicit: `lcAll` is the entering value of the `LC_ALL` environment
variable (`none` = unset), `spawnSync` is the external call parameterized
by the `LC_ALL` value it observes, and the returned pair carries the
outcome together with the `LC_ALL` value left behind.  The source deletes
`LC_ALL`, runs the synchronous spawn, executes
`process.env.LC_ALL = locale`, and only then inspects `stderr`.  Node
coerces every value assigned to a `process.env` entry to a string, so when
`locale` is `undefined` (the variable was unset on entry) that assignment
sets `LC_ALL` to the literal string `"undefined"`; the variable is
therefore always set after the assignment, which the model reflects by the
`restored` value being `some` in both cases. -/
def runAppleScript (platform : String) (lcAll : Option String)
    (spawnSync : Option String → SpawnResult) : Except String String × Option String :=
  if platform ≠ "darwin" then (Except.error "macOS only", lcAll)
  else
    let locale := lcAll
    let result := spawnSync none
    let restored : Option String :=
      match locale with
      | some s => some s
      | none => some "undefined"
    if result.stderr ≠ "" then (Except.error result.stderr, restored)
    else (Except.ok result.stdout, restored)

/-! ## The application identity families (detectors.ts, lines 7-88) -/

/-- The `FileManager` union. -/
inductive FileManager
  | finder
  | qspacePro
  | bloom
deriving Repr, DecidableEq

/-- The string value of a `FileManager` member. -/
def FileManager.displayName : FileManager → String
  | .finder => "Finder"
  | .qspacePro => "QSpace Pro"
  | .bloom => "Bloom"

/-- `FILE_MANAGERS`. -/
def FILE_MANAGERS : List FileManager := [.finder, .qspacePro, .bloom]

/-- The `Terminal` union. -/
inductive Terminal
  | terminal
  | iterm
  | warp
  | wezterm
  | ghostty
  | kitty
deriving Repr, DecidableEq

/-- The string value of a `Terminal` member. -/
def Terminal.displayName : Terminal → String
  | .terminal => "Terminal"
  | .iterm => "iTerm"
  | .warp => "Warp"
  | .wezterm => "WezTerm"
  | .ghostty => "Ghostty"
  | .kitty => "kitty"

/-- `TERMINALS`. -/
def TERMINALS : List Terminal := [.terminal, .iterm, .warp, .wezterm, .ghostty, .kitty]

/-- The `DocumentApp` union. -/
inductive DocumentApp
  | vscode
  | vscodeInsiders
  | xcode
  | xcodeBeta
  | intellij
  | pycharm
  | webstorm
  | phpstorm
  | rubymine
  | goland
  | clion
  | datagrip
  | rider
  | appcode
  | sublime
  | bbedit
  | textedit
  | coteditor
  | nova
  | obsidian
  | word
  | excel
  | powerpoint
  | preview
  | skim
  | pdfExpert
  | acrobat
  | acrobatReader
deriving Repr, DecidableEq

/-- The string value of a `DocumentApp` member. -/
def DocumentApp.displayName : DocumentApp → String
  | .vscode => "Visual Studio Code"
  | .vscodeInsiders => "Visual Studio Code - Insiders"
  | .xcode => "Xcode"
  | .xcodeBeta => "Xcode-beta"
  | .intellij => "IntelliJ IDEA"
  | .pycharm => "PyCharm"
  | .webstorm => "WebStorm"
  | .phpstorm => "PhpStorm"
  | .rubymine => "RubyMine"
  | .goland => "GoLand"
  | .clion => "CLion"
  | .datagrip => "DataGrip"
  | .rider => "Rider"
  | .appcode => "AppCode"
  | .sublime => "Sublime Text"
  | .bbedit => "BBEdit"
  | .textedit => "TextEdit"
  | .coteditor => "CotEditor"
  | .nova => "Nova"
  | .obsidian => "Obsidian"
  | .word => "Microsoft Word"
  | .excel => "Microsoft Excel"
  | .powerpoint => "Microsoft PowerPoint"
  | .preview => "Preview"
  | .skim => "Skim"
  | .pdfExpert => "PDF Expert"
  | .acrobat => "Adobe Acrobat"
  | .acrobatReader => "Adobe Acrobat Reader DC"

/-- `DOCUMENT_APPS`. -/
def DOCUMENT_APPS : List DocumentApp :=
  [.vscode, .vscodeInsiders, .xcode, .xcodeBeta, .intellij, .pycharm, .webstorm,
   .phpstorm, .rubymine, .goland, .clion, .datagrip, .rider, .appcode, .sublime,
   .bbedit, .textedit, .coteditor, .nova, .obsidian, .word, .excel, .powerpoint,
   .preview, .skim, .pdfExpert, .acrobat, .acrobatReader]

/-! ## The script registry (detectors.ts, lines 200-481 and 511-598)

The template-literal bodies are reproduced verbatim; `${...}`
interpolations become string concatenation. -/

/-- The Visual Studio Code / Insiders branch (detectors.ts, lines 202-220). -/
def vscodeScript (processName appName : String) : String :=
  "
        tell application \"System Events\"
          if not (exists process \"" ++ processName ++ "\") then error \"" ++ appName ++ " is not running\"
          tell process \"" ++ processName ++ "\"
            if (count of windows) = 0 then error \"No window open\"
            try
              set docPath to value of attribute \"AXDocument\" of front window
              if docPath is missing value then error \"No active document\"
              return docPath
            on error
              error \"Could not read active document\"
            end try
          end tell
        end tell
      "

/-- The Xcode / Xcode-beta branch (detectors.ts, lines 221-235). -/
def xcodeScript (appName : String) : String :=
  "
        if application \"" ++ appName ++ "\" is not running then
            error \"" ++ appName ++ " is not running\"
        end if

        tell application \"" ++ appName ++ "\"
          if (count of windows) = 0 then error \"No window open\"
          set activeDoc to active workspace document
          if activeDoc is missing value then error \"No active document\"
          set docPath to path of activeDoc
          return POSIX path of docPath
        end tell
      "

/-- The JetBrains-IDE branch (detectors.ts, lines 236-275). -/
def jetBrainsScript (appName : String) : String :=
  "
        if application \"" ++ appName ++ "\" is not running then
            error \"" ++ appName ++ " is not running\"
        end if

        tell application \"System Events\"
          tell process \"" ++ appName ++ "\"
            if (count of windows) = 0 then error \"No window open\"
            set winTitle to name of window 1
          end tell
        end tell

        set pathPart to winTitle
        if winTitle contains \" - \" then
          set AppleScript\x27s text item delimiters to \" - \"
          set pathPart to text item 2 of (text items of winTitle)
        end if

        set AppleScript\x27s text item delimiters to \"\"
        set pathPart to do shell script \"echo \" & quoted form of pathPart & \" | xargs\"

        if pathPart contains \"[\" then
          set AppleScript\x27s text item delimiters to \"[\"
          set pathPart to text item 1 of (text items of pathPart)
          set AppleScript\x27s text item delimiters to \"\"
          set pathPart to do shell script \"echo \" & quoted form of pathPart & \" | xargs\"
        end if

        return pathPart
      "

/-- The Sublime Text branch (detectors.ts, lines 276-292). -/
def sublimeTextScript : String :=
  "
        if application \"Sublime Text\" is not running then
            error \"Sublime Text is not running\"
        end if

        tell application \"Sublime Text\"
          if (count of windows) = 0 then error \"No window open\"
          tell window 1
            if (count of views) = 0 then error \"No active document\"
            set activeView to view 1
            set docPath to file of activeView
            if docPath is missing value then error \"No active document\"
            return docPath
          end tell
        end tell
      "

/-- The BBEdit branch (detectors.ts, lines 293-309). -/
def bbeditScript : String :=
  "
        if application \"BBEdit\" is not running then
            error \"BBEdit is not running\"
        end if

        tell application \"BBEdit\"
          if (count of windows) = 0 then error \"No window open\"
          set activeDoc to document of window 1
          if activeDoc is missing value then error \"No active document\"
          if exists file of activeDoc then
            set docPath to file of activeDoc
            return POSIX path of docPath
          end if
          error \"No active document\"
        end tell
      "

/-- The TextEdit branch (detectors.ts, lines 310-324). -/
def texteditScript : String :=
  "
        if application \"TextEdit\" is not running then
            error \"TextEdit is not running\"
        end if

        tell application \"TextEdit\"
          if (count of windows) = 0 then error \"No window open\"
          set activeDoc to document of window 1
          if activeDoc is missing value then error \"No active document\"
          set docPath to path of activeDoc
          if docPath is missing value then error \"No active document\"
          return POSIX path of docPath
        end tell
      "

/-- The CotEditor branch (detectors.ts, lines 325-339). -/
def coteditorScript : String :=
  "
        if application \"CotEditor\" is not running then
            error \"CotEditor is not running\"
        end if

        tell application \"CotEditor\"
          if (count of windows) = 0 then error \"No window open\"
          set activeDoc to front document
          if activeDoc is missing value then error \"No active document\"
          set docPath to path of activeDoc
          if docPath is missing value then error \"No active document\"
          return POSIX path of docPath
        end tell
      "

/-- The Nova branch (detectors.ts, lines 340-355). -/
def novaScript : String :=
  "
        if application \"Nova\" is not running then
            error \"Nova is not running\"
        end if

        tell application \"Nova\"
          if (count of windows) = 0 then error \"No window open\"
          tell window 1
            set activeDoc to active document
            if activeDoc is missing value then error \"No active document\"
            set docPath to path of activeDoc
            return POSIX path of docPath
          end tell
        end tell
      "

/-- The Obsidian branch (detectors.ts, lines 356-370). -/
def obsidianScript : String :=
  "
        if application \"Obsidian\" is not running then
            error \"Obsidian is not running\"
        end if

        tell application \"System Events\"
          tell process \"Obsidian\"
            if (count of windows) = 0 then error \"No window open\"
            set docPath to value of attribute \"AXDocument\" of window 1
            if docPath is missing value then error \"No active document\"
            return docPath
          end tell
        end tell
      "

/-- The Microsoft Word branch (detectors.ts, lines 371-388). -/
def wordScript : String :=
  "
        if application \"Microsoft Word\" is not running then
            error \"Microsoft Word is not running\"
        end if

        tell application \"Microsoft Word\"
          if not (exists active document) then error \"No active document\"
          if (path of active document) is missing value then error \"Document not saved\"
          set docPath to (path of active document as text) & (name of active document)
          try
            set docAlias to file docPath
            return POSIX path of docAlias
          on error
            return docPath
          end try
        end tell
      "

/-- The Microsoft Excel branch (detectors.ts, lines 389-406). -/
def excelScript : String :=
  "
        if application \"Microsoft Excel\" is not running then
            error \"Microsoft Excel is not running\"
        end if

        tell application \"Microsoft Excel\"
          if not (exists active workbook) then error \"No active workbook\"
          if (path of active workbook) is \"\" then error \"Workbook not saved\"
          set docPath to (path of active workbook) & (name of active workbook)
          try
            set docAlias to file docPath
            return POSIX path of docAlias
          on error
            return docPath
          end try
        end tell
      "

/-- The Microsoft PowerPoint branch (detectors.ts, lines 407-424). -/
def powerpointScript : String :=
  "
        if application \"Microsoft PowerPoint\" is not running then
            error \"Microsoft PowerPoint is not running\"
        end if

        tell application \"Microsoft PowerPoint\"
          if not (exists active presentation) then error \"No active presentation\"
          if (path of active presentation) is \"\" then error \"Presentation not saved\"
          set docPath to (path of active presentation) & (name of active presentation)
          try
            set docAlias to file docPath
            return POSIX path of docAlias
          on error
            return docPath
          end try
        end tell
      "

/-- The Preview branch (detectors.ts, lines 425-436). -/
def previewScript : String :=
  "
        if application \"Preview\" is not running then
            error \"Preview is not running\"
        end if

        tell application \"Preview\"
          if (count of documents) is 0 then error \"No document open\"
          set docPath to path of front document
          return POSIX path of docPath
        end tell
      "

/-- The Skim branch (detectors.ts, lines 437-450). -/
def skimScript : String :=
  "
        if application \"Skim\" is not running then
            error \"Skim is not running\"
        end if

        tell application \"Skim\"
          if (count of windows) is 0 then error \"No document open\"
          set activeDoc to document of window 1
          if activeDoc is missing value then error \"No document open\"
          set docPath to file of activeDoc
          return POSIX path of docPath
        end tell
      "

/-- The PDF Expert branch (detectors.ts, lines 451-466). -/
def pdfExpertScript : String :=
  "
        if application \"PDF Expert\" is not running then
            error \"PDF Expert is not running\"
        end if

        tell application \"PDF Expert\"
          if (count of windows) = 0 then error \"No document open\"
          tell window 1
            set activeDoc to active document
            if activeDoc is missing value then error \"No document open\"
            set docPath to path of activeDoc
            return POSIX path of docPath
          end tell
        end tell
      "

/-- The Adobe Acrobat / Acrobat Reader branch (detectors.ts, lines 467-479). -/
def adobeScript (appName : String) : String :=
  "
        if application \"" ++ appName ++ "\" is not running then
            error \"" ++ appName ++ " is not running\"
        end if

        tell application \"" ++ appName ++ "\"
          if not (exists active doc) then error \"No document open\"
          set docPath to file alias of active doc
          return POSIX path of docPath
        end tell
      "

/-- `buildDocumentPathScript` (detectors.ts, lines 200-481). -/
def buildDocumentPathScript (app : DocumentApp) : String :=
  match app with
  | .vscode | .vscodeInsiders =>
    let processName := if app = .vscodeInsiders then "Code - Insiders" else "Code"
    vscodeScript processName app.displayName
  | .xcode | .xcodeBeta => xcodeScript app.displayName
  | .intellij | .pycharm | .webstorm | .phpstorm | .rubymine | .goland | .clion
  | .datagrip | .rider | .appcode => jetBrainsScript app.displayName
  | .sublime => sublimeTextScript
  | .bbedit => bbeditScript
  | .textedit => texteditScript
  | .coteditor => coteditorScript
  | .nova => novaScript
  | .obsidian => obsidianScript
  | .word => wordScript
  | .excel => excelScript
  | .powerpoint => powerpointScript
  | .preview => previewScript
  | .skim => skimScript
  | .pdfExpert => pdfExpertScript
  | .acrobat | .acrobatReader => adobeScript app.displayName

/-- The Finder branch (detectors.ts, lines 513-528). -/
def finderScript : String :=
  "
        if application \"Finder\" is not running then
            error \"Finder is not running\"
        end if

        tell application \"Finder\"
          if (count of Finder windows) = 0 then error \"No Finder window open\"
          try
            set pathList to POSIX path of (folder of the front window as alias)
            return pathList
          on error
            error \"Could not access Finder window path\"
          end try
        end tell
      "

/-- The QSpace Pro branch (detectors.ts, lines 529-574). -/
def qspaceProScript : String :=
  "
        if application \"QSpace Pro\" is not running then
            error \"QSpace Pro is not running\"
        end if

        tell application \"QSpace Pro\"
          if (count of windows) = 0 then error \"No QSpace Pro window open\"

          try
            set sel to selected items of front window
            if (count of sel) > 0 then
              set fileItem to item 1 of sel
              try
                return urlstr of fileItem
              on error
                return POSIX path of fileItem
              end try
            end if
          end try

          try
            set sel to selection of front window
            if (count of sel) > 0 then
              set fileItem to item 1 of sel
              try
                return urlstr of fileItem
              on error
                return POSIX path of fileItem
              end try
            end if
          end try

          try
            set paneRoot to root item of activated pane of front window
            return urlstr of paneRoot
          end try

          try
            set winRoot to root item of front window
            return urlstr of winRoot
          end try

          return missing value
        end tell
      "

/-- The Bloom branch (detectors.ts, lines 575-596). -/
def bloomScript : String :=
  "
        if application \"Bloom\" is not running then
            error \"Bloom is not running\"
        end if

        tell application \"Bloom\"
          try
            set winSel to selection of front window
            if (count of winSel) > 0 then
              set item1 to item 1 of winSel
              try
                return POSIX path of item1
              on error
                return POSIX path of (item1 as alias)
              end try
            end if
          on error
            return rootURL of front window
          end try
        end tell
      "

/-- `buildFileManagerPathScript` (detectors.ts, lines 511-598). -/
def buildFileManagerPathScript (fileManager : FileManager) : String :=
  match fileManager with
  | .finder => finderScript
  | .qspacePro => qspaceProScript
  | .bloom => bloomScript

/-- The per-terminal script built inline by `applicationToFileManager`
(actors.ts, lines 41-52) — the script-building strategy of the terminal
family, which queries no path and instead drives the terminal to open the
file manager in its current directory. -/
def applicationToFileManagerScript (name : Terminal) (fileManager : FileManager) :
    String :=
  "
    if application \"" ++ name.displayName ++ "\" is not running then
      error \"" ++ name.displayName ++ " is not running\"
    end if

    tell application \"" ++ fileManager.displayName ++ "\" to activate
    tell application \"" ++ name.displayName ++ "\" to activate
    tell application \"System Events\"
      keystroke \"open -a \x27" ++ fileManager.displayName ++ "\x27 ./\"
      key code 76
    end tell
  "

/-! ## General list and string lemmas -/

theorem takeWhile_append_all {α} {p : α → Bool} :
    ∀ {l₁ : List α}, (∀ c ∈ l₁, p c = true) → ∀ l₂,
      (l₁ ++ l₂).takeWhile p = l₁ ++ l₂.takeWhile p := by
  intro l₁
  induction l₁ with
  | nil => intro _ l₂; simp
  | cons a t ih =>
    intro h l₂
    have ha : p a = true := h a (by simp)
    simp only [List.cons_append, List.takeWhile_cons_of_pos ha]
    rw [ih (fun c hc => h c (by simp [hc]))]

theorem dropWhile_append_all {α} {p : α → Bool} :
    ∀ {l₁ : List α}, (∀ c ∈ l₁, p c = true) → ∀ l₂,
      (l₁ ++ l₂).dropWhile p = l₂.dropWhile p := by
  intro l₁
  induction l₁ with
  | nil => intro _ l₂; simp
  | cons a t ih =>
    intro h l₂
    have ha : p a = true := h a (by simp)
    simp only [List.cons_append, List.dropWhile_cons_of_pos ha]
    exact ih (fun c hc => h c (by simp [hc])) l₂

theorem takeWhile_all_eq {α} {p : α → Bool} {l : List α} (h : ∀ c ∈ l, p c = true) :
    l.takeWhile p = l := by
  have := takeWhile_append_all h []
  simpa using this

theorem dropWhile_all_nil {α} {p : α → Bool} {l : List α} (h : ∀ c ∈ l, p c = true) :
    l.dropWhile p = [] := by
  have := dropWhile_append_all h []
  simpa using this

theorem dropWhile_append_keep {α} {p : α → Bool} {l₂ : List α}
    (h : l₂.dropWhile p = l₂) : ∀ l₁, (l₁ ++ l₂).dropWhile p = l₁.dropWhile p ++ l₂ := by
  intro l₁
  induction l₁ with
  | nil => simpa using h
  | cons a t ih =>
    cases hpa : p a with
    | true =>
      simp only [List.cons_append, List.dropWhile_cons_of_pos hpa]
      exact ih
    | false =>
      have hna : ¬ p a = true := by simp [hpa]
      rw [List.cons_append, List.dropWhile_cons_of_neg hna,
        List.dropWhile_cons_of_neg hna, List.cons_append]

theorem filter_all_eq {α} {p : α → Bool} {l : List α} (h : ∀ c ∈ l, p c = true) :
    l.filter p = l := by
  induction l with
  | nil => rfl
  | cons a t ih =>
    rw [List.filter_cons, if_pos (h a (by simp))]
    rw [ih (fun c hc => h c (by simp [hc]))]

theorem map_all_eq {α} {f : α → α} {l : List α} (h : ∀ c ∈ l, f c = c) :
    l.map f = l := by
  induction l with
  | nil => rfl
  | cons a t ih =>
    simp only [List.map_cons, h a (by simp), ih (fun c hc => h c (by simp [hc]))]

theorem dropWhile_eq_self_of_prefix {α} {q : α → Bool} {r l : List α}
    (hp : r <+: l) (hl : l.dropWhile q = l) : r.dropWhile q = r := by
  cases r with
  | nil => rfl
  | cons a r' =>
    obtain ⟨t, rfl⟩ := hp
    have hqa : q a = false := by
      cases hqa : q a with
      | false => rfl
      | true =>
        exfalso
        rw [List.cons_append, List.dropWhile_cons_of_pos hqa] at hl
        have hlen := congrArg List.length hl
        rw [List.length_cons] at hlen
        have hle := (List.dropWhile_suffix (l := r' ++ t) q).length_le
        omega
    exact List.dropWhile_cons_of_neg (by simp [hqa])

theorem dropWhile_idem {α} (q : α → Bool) (l : List α) :
    (l.dropWhile q).dropWhile q = l.dropWhile q := by
  induction l with
  | nil => rfl
  | cons a t ih =>
    cases hqa : q a with
    | true => simpa [List.dropWhile_cons_of_pos hqa] using ih
    | false =>
      have hna : ¬ q a = true := by simp [hqa]
      rw [List.dropWhile_cons_of_neg hna, List.dropWhile_cons_of_neg hna]

theorem jsTrimList_idem (cs : List Char) : jsTrimList (jsTrimList cs) = jsTrimList cs := by
  unfold jsTrimList
  have h1 : ((((cs.dropWhile isJsWs).reverse.dropWhile isJsWs).reverse).dropWhile isJsWs) =
      ((cs.dropWhile isJsWs).reverse.dropWhile isJsWs).reverse := by
    apply dropWhile_eq_self_of_prefix (l := cs.dropWhile isJsWs)
    · nth_rewrite 2 [← List.reverse_reverse (cs.dropWhile isJsWs)]
      exact (List.reverse_prefix).2 (List.dropWhile_suffix isJsWs)
    · exact dropWhile_idem isJsWs cs
  rw [h1, List.reverse_reverse, dropWhile_idem]

theorem jsTrim_idem (s : String) : jsTrim (jsTrim s) = jsTrim s := by
  unfold jsTrim
  exact congrArg String.mk (jsTrimList_idem s.data)

theorem jsTrimList_all_not {cs : List Char} (h : ∀ c ∈ cs, isJsWs c = false) :
    jsTrimList cs = cs := by
  unfold jsTrimList
  have h1 : cs.dropWhile isJsWs = cs := by
    cases cs with
    | nil => rfl
    | cons a t => exact List.dropWhile_cons_of_neg (by simp [h a (by simp)])
  rw [h1]
  have h2 : cs.reverse.dropWhile isJsWs = cs.reverse := by
    cases hr : cs.reverse with
    | nil => rfl
    | cons a t =>
      refine List.dropWhile_cons_of_neg ?_
      have ha : a ∈ cs := by
        rw [← List.mem_reverse, hr]; simp
      simp [h a ha]
  rw [h2, List.reverse_reverse]

theorem jsTrimList_cons_slash (cs : List Char) :
    ∃ l, jsTrimList ('/' :: cs) = '/' :: l := by
  unfold jsTrimList
  have h1 : ('/' :: cs).dropWhile isJsWs = '/' :: cs :=
    List.dropWhile_cons_of_neg (by decide)
  rw [h1]
  have h2 : ('/' :: cs).reverse = cs.reverse ++ ['/'] := by simp
  rw [h2]
  have h3 : (cs.reverse ++ ['/']).dropWhile isJsWs =
      cs.reverse.dropWhile isJsWs ++ ['/'] :=
    dropWhile_append_keep (by decide) cs.reverse
  rw [h3]
  exact ⟨(cs.reverse.dropWhile isJsWs).reverse, by simp⟩

theorem string_ne_of_head {s r : String} {a b : Char}
    (hs : s.data.head? = some a) (hr : r.data.head? = some b) (hne : a ≠ b) :
    s ≠ r := by
  intro h
  rw [h, hr] at hs
  injection hs with h2
  exact hne h2.symm

/-! ## Structural lemmas about the URL model -/

/-- The tail transformation `urlPre` performs after a clean `file://` prefix:
tab/newline filtering and trailing C0/space stripping. -/
def urlTrail (l : List Char) : List Char :=
  ((l.filter fun c => c != '\t' && c != '\n' && c != '\x0d').reverse.dropWhile
      fun c => c.toNat ≤ 0x20).reverse

theorem urlPre_file (l : List Char) :
    urlPre ('f' :: 'i' :: 'l' :: 'e' :: ':' :: '/' :: '/' ::l) =
      'f' :: 'i' :: 'l' :: 'e' :: ':' :: '/' :: '/' ::urlTrail l := by
  unfold urlPre urlTrail
  have h1 : ('f' :: 'i' :: 'l' :: 'e' :: ':' :: '/' :: '/' ::l).filter
      (fun c => c != '\t' && c != '\n' && c != '\x0d') =
      'f' :: 'i' :: 'l' :: 'e' :: ':' :: '/' :: '/' ::(l.filter
        fun c => c != '\t' && c != '\n' && c != '\x0d') := rfl
  rw [h1]
  have h2 : (('f' :: 'i' :: 'l' :: 'e' :: ':' :: '/' :: '/' ::(l.filter
      fun c => c != '\t' && c != '\n' && c != '\x0d')).dropWhile
        fun c => c.toNat ≤ 0x20) =
      'f' :: 'i' :: 'l' :: 'e' :: ':' :: '/' :: '/' ::(l.filter
        fun c => c != '\t' && c != '\n' && c != '\x0d') := rfl
  rw [h2]
  have h3 : ('f' :: 'i' :: 'l' :: 'e' :: ':' :: '/' :: '/' ::(l.filter
      fun c => c != '\t' && c != '\n' && c != '\x0d')).reverse =
      (l.filter fun c => c != '\t' && c != '\n' && c != '\x0d').reverse ++
        ['/', '/', ':', 'e', 'l', 'i', 'f'] := by simp
  rw [h3]
  rw [dropWhile_append_keep (by decide)]
  simp

theorem splitScheme_file (rest : List Char) :
    splitScheme ('f' :: 'i' :: 'l' :: 'e' :: ':' :: '/' :: '/' ::rest) =
      some ("file", '/' :: '/' ::rest) := rfl

theorem urlParse_file_prefix {t : String} (h : jsStartsWith t "file://" = true) :
    ∃ rest, urlParse t = parseFileUrl ('/' :: '/' ::rest) := by
  unfold jsStartsWith at h
  obtain ⟨l, hl⟩ := List.isPrefixOf_iff_prefix.1 h
  refine ⟨urlTrail l, ?_⟩
  unfold urlParse
  rw [← hl]
  have hdata : "file://".data ++ l = 'f' :: 'i' :: 'l' :: 'e' :: ':' :: '/' :: '/' ::l := rfl
  rw [hdata, urlPre_file l, splitScheme_file (urlTrail l)]
  simp

theorem makePathname_dropWhile_head (l : List Char) :
    (makePathname (l.dropWhile notAuthorityEnd)).head? = some '/' := by
  cases hd : l.dropWhile notAuthorityEnd with
  | nil => rfl
  | cons a d' =>
    have ha : notAuthorityEnd a = false := by
      have hw := List.head?_dropWhile_not notAuthorityEnd l
      rw [hd] at hw
      simpa using hw
    have ha' : a = '/' ∨ a = '\\' ∨ a = '?' ∨ a = '#' := by
      by_contra hcon
      push_neg at hcon
      obtain ⟨h1, h2, h3, h4⟩ := hcon
      unfold notAuthorityEnd isSlash at ha
      simp [h1, h2, h3, h4] at ha
    rcases ha' with h' | h' | h' | h' <;> subst h' <;> rfl

theorem parseFileUrl_pathname_head {rest : List Char} {u : UrlModel}
    (h : parseFileUrl ('/' :: '/' ::rest) = some u) :
    u.pathname.data.head? = some '/' := by
  have hred : parseFileUrl ('/' :: '/' ::rest) =
      (match parseHostPort (rest.takeWhile notAuthorityEnd) with
       | none => none
       | some host =>
         some ⟨"file", String.mk (if host = "localhost".data then [] else host),
           String.mk (makePathname (rest.dropWhile notAuthorityEnd))⟩) := rfl
  rw [hred] at h
  cases hh : parseHostPort (rest.takeWhile notAuthorityEnd) with
  | none =>
    rw [hh] at h
    exact absurd h (by simp)
  | some host =>
    rw [hh] at h
    simp only [Option.some.injEq] at h
    rw [← h]
    exact makePathname_dropWhile_head rest

theorem decodeURIComponent_slash_head {s p : String}
    (hs : s.data.head? = some '/') (h : decodeURIComponent s = some p) :
    p.data.head? = some '/' := by
  unfold decodeURIComponent at h
  cases hsd : s.data with
  | nil => rw [hsd] at hs; exact absurd hs (by simp)
  | cons a rest =>
    rw [hsd] at hs h
    have ha : a = '/' := by simpa using hs
    subst ha
    have h1 : percentDecodeChars ('/' ::rest) =
        (percentDecodeChars rest).map (fun bs => charUtf8Bytes '/' ++ bs) := by
      rw [percentDecodeChars.eq_def]
      rfl
    rw [h1] at h
    cases hpd : percentDecodeChars rest with
    | none => rw [hpd] at h; simp at h
    | some bs =>
      rw [hpd] at h
      have hcu : charUtf8Bytes '/' ++ bs = 47 :: bs := rfl
      simp only [Option.map_some', Option.some_bind, hcu] at h
      have h2 : utf8DecodeList (47 :: bs) =
          (utf8DecodeList bs).map (fun cs => Char.ofNat 47 :: cs) := rfl
      rw [h2] at h
      cases hub : utf8DecodeList bs with
      | none => rw [hub] at h; simp at h
      | some cs =>
        rw [hub] at h
        simp only [Option.map_some', Option.some.injEq] at h
        rw [← h]
        rfl

/-! ## Branch lemmas for the normalizer -/

theorem normalize_empty_case {x : String}
    (h : jsTrim x = "" ∨ jsTrim x = "missing value") :
    normalizeFileManagerResult x = "" := by
  unfold normalizeFileManagerResult
  rw [if_pos (by rcases h with h | h <;> simp [h])]

theorem normalize_plain_case {x : String} (h1 : jsTrim x ≠ "")
    (h2 : jsTrim x ≠ "missing value")
    (h3 : jsStartsWith (jsTrim x) "file://" = false) :
    normalizeFileManagerResult x = jsTrim x := by
  unfold normalizeFileManagerResult
  rw [if_neg (by simp [h1, h2]), if_neg (by simp [h3])]

theorem normalize_file_case {x : String} (h1 : jsTrim x ≠ "")
    (h2 : jsTrim x ≠ "missing value")
    (h3 : jsStartsWith (jsTrim x) "file://" = true) :
    normalizeFileManagerResult x =
      match (urlParse (jsTrim x)).bind fun u => decodeURIComponent u.pathname with
      | some p => p
      | none => jsTrim x := by
  unfold normalizeFileManagerResult
  rw [if_neg (by simp [h1, h2]), if_pos (by simp [h3])]

theorem normalize_slash_head {y : String} (h : y.data.head? = some '/') :
    normalizeFileManagerResult y = jsTrim y := by
  obtain ⟨a, cs, hy⟩ : ∃ a cs, y.data = a :: cs := by
    cases hd : y.data with
    | nil => rw [hd] at h; exact absurd h (by simp)
    | cons a cs => exact ⟨a, cs, rfl⟩
  rw [hy] at h
  have ha : a = '/' := by simpa using h
  subst ha
  obtain ⟨l, hl⟩ := jsTrimList_cons_slash cs
  have htr : (jsTrim y).data = '/' :: l := by
    unfold jsTrim
    rw [hy]
    exact hl
  apply normalize_plain_case
  · intro hc
    rw [hc] at htr
    exact absurd htr (by simp)
  · intro hc
    rw [hc] at htr
    have h2 : some 'm' = some '/' := congrArg List.head? htr
    exact absurd h2 (by decide)
  · unfold jsStartsWith
    rw [htr]
    rfl

/-- The amended idempotence law: a second pass of the normalizer is exactly
a trim of the first pass's output. -/
theorem normalize_normalize (x : String) :
    normalizeFileManagerResult (normalizeFileManagerResult x) =
      jsTrim (normalizeFileManagerResult x) := by
  by_cases h1 : jsTrim x = "" ∨ jsTrim x = "missing value"
  · rw [normalize_empty_case h1]
    rfl
  · push_neg at h1
    obtain ⟨hne, hnm⟩ := h1
    cases h2 : jsStartsWith (jsTrim x) "file://" with
    | false =>
      rw [normalize_plain_case hne hnm h2]
      have h1' : jsTrim (jsTrim x) ≠ "" := by rw [jsTrim_idem]; exact hne
      have h2' : jsTrim (jsTrim x) ≠ "missing value" := by rw [jsTrim_idem]; exact hnm
      have h3' : jsStartsWith (jsTrim (jsTrim x)) "file://" = false := by
        rw [jsTrim_idem]; exact h2
      rw [normalize_plain_case h1' h2' h3']
    | true =>
      cases hdec : (urlParse (jsTrim x)).bind fun u => decodeURIComponent u.pathname with
      | none =>
        have hx : normalizeFileManagerResult x = jsTrim x := by
          rw [normalize_file_case hne hnm h2, hdec]
        rw [hx]
        have h1' : jsTrim (jsTrim x) ≠ "" := by rw [jsTrim_idem]; exact hne
        have h2' : jsTrim (jsTrim x) ≠ "missing value" := by rw [jsTrim_idem]; exact hnm
        have h3' : jsStartsWith (jsTrim (jsTrim x)) "file://" = true := by
          rw [jsTrim_idem]; exact h2
        rw [normalize_file_case h1' h2' h3', jsTrim_idem, hdec]
      | some p =>
        have hx : normalizeFileManagerResult x = p := by
          rw [normalize_file_case hne hnm h2, hdec]
        obtain ⟨u, hu, hp⟩ := Option.bind_eq_some.1 hdec
        obtain ⟨rest, hpf⟩ := urlParse_file_prefix h2
        rw [hpf] at hu
        have hph : p.data.head? = some '/' :=
          decodeURIComponent_slash_head (parseFileUrl_pathname_head hu) hp
        rw [hx]
        exact normalize_slash_head hph

/-! ## Fixtures for concrete evaluations -/

/-- An environment with an unreadable CloudStorage container and a
filesystem on which every stat fails. -/
def fs0 : FS := ⟨"/Users/u", none, fun _ => none⟩

/-- An environment with one OneDrive sync root and one synced file. -/
def fsSynced : FS :=
  ⟨"/Users/u", some [("OneDrive-Contoso", true), ("Dropbox", true)],
    fun p =>
      if p = "/Users/u/Library/CloudStorage/OneDrive-Contoso/Documents/Reports/Q1.docx"
      then some true else none⟩

/-- An environment with one regular file and one directory. -/
def fsLocal : FS :=
  ⟨"/Users/u", none,
    fun p =>
      if p = "/docs/report.txt" then some true
      else if p = "/docs" then some false
      else none⟩

/-- An external call that reports whether it saw a locale variable. -/
def spawnProbe : Option String → SpawnResult := fun lc =>
  match lc with
  | some _ => ⟨"", "locale visible"⟩
  | none => ⟨"ok", ""⟩

/-! ## Claims -/

/-- C2: for every input string, `normalizeFileManagerResult` trims first;
an empty or `"missing value"` trim yields `""`; a trimmed `file://` input
yields the URL-decoded path component, falling back to the trimmed string
when parsing or decoding fails; anything else is returned trimmed verbatim.
(The function is total, so it never throws.) -/
theorem normalizeFileManagerResult_claim (s : String) :
    ((jsTrim s = "" ∨ jsTrim s = "missing value") → normalizeFileManagerResult s = "") ∧
    (jsTrim s ≠ "" → jsTrim s ≠ "missing value" →
      jsStartsWith (jsTrim s) "file://" = false →
      normalizeFileManagerResult s = jsTrim s) ∧
    (jsTrim s ≠ "" → jsTrim s ≠ "missing value" →
      jsStartsWith (jsTrim s) "file://" = true →
      normalizeFileManagerResult s =
        match (urlParse (jsTrim s)).bind fun u => decodeURIComponent u.pathname with
        | some p => p
        | none => jsTrim s) :=
  ⟨normalize_empty_case, normalize_plain_case, normalize_file_case⟩

/-- C2 witness: the spec's concrete examples, via the claim theorem. -/
theorem normalizeFileManagerResult_claim_witness :
    normalizeFileManagerResult "file:///Users/a b/x.txt" = "/Users/a b/x.txt" ∧
    normalizeFileManagerResult "  /plain/path  " = "/plain/path" ∧
    normalizeFileManagerResult "missing value" = "" := by
  refine ⟨?_, ?_, ?_⟩
  · have h := (normalizeFileManagerResult_claim "file:///Users/a b/x.txt").2.2
      (by decide) (by decide) (by decide)
    rw [h]
    decide
  · have h := (normalizeFileManagerResult_claim "  /plain/path  ").2.1
      (by decide) (by decide) (by decide)
    rw [h]
    decide
  · exact (normalizeFileManagerResult_claim "missing value").1 (Or.inr (by decide))

/-- C9 counterexample: idempotence fails as stated — the decoded path of
`file:///a%20` is `"/a "`, and a second normalization trims the trailing
space. -/
theorem normalize_idempotence_counterexample :
    normalizeFileManagerResult (normalizeFileManagerResult "file:///a%20") ≠
      normalizeFileManagerResult "file:///a%20" := by decide

/-- C9 (amended): the second application of `normalizeFileManagerResult` is
exactly a whitespace trim of the first application's output; in particular
idempotence holds precisely when the first output carries no edge
whitespace, which can only arise from the file-URL decode branch. -/
theorem normalize_idempotent_up_to_trim (x : String) :
    normalizeFileManagerResult (normalizeFileManagerResult x) =
      jsTrim (normalizeFileManagerResult x) :=
  normalize_normalize x

/-- C6: `resolveOpenPath` maps an existing regular file to its containing
directory and returns the path unchanged when it is a directory, does not
exist, or cannot be stat-ed; it is total, so it never raises. -/
theorem resolveOpenPath_claim (fs : FS) (p : String) :
    (p ≠ "" → fs.statIsFile p = some true → resolveOpenPath fs p = dirname p) ∧
    (fs.statIsFile p = some false → resolveOpenPath fs p = p) ∧
    (fs.statIsFile p = none → resolveOpenPath fs p = p) := by
  refine ⟨?_, ?_, ?_⟩
  · intro h1 h2
    unfold resolveOpenPath
    rw [if_neg h1, h2]
  · intro h
    unfold resolveOpenPath
    by_cases hp : p = ""
    · rw [if_pos hp, hp]
    · rw [if_neg hp, h]
  · intro h
    unfold resolveOpenPath
    by_cases hp : p = ""
    · rw [if_pos hp, hp]
    · rw [if_neg hp, h]

/-- C6 witness: the three spec scenarios on a concrete filesystem. -/
theorem resolveOpenPath_claim_witness :
    resolveOpenPath fsLocal "/docs/report.txt" = "/docs" ∧
    resolveOpenPath fsLocal "/docs" = "/docs" ∧
    resolveOpenPath fsLocal "/nope" = "/nope" := by
  refine ⟨?_, ?_, ?_⟩
  · have h := (resolveOpenPath_claim fsLocal "/docs/report.txt").1 (by decide) (by decide)
    rw [h]
    decide
  · exact (resolveOpenPath_claim fsLocal "/docs").2.1 (by decide)
  · exact (resolveOpenPath_claim fsLocal "/nope").2.2 (by decide)

/-- C7: the restore step is broken in the unset case.  When `LC_ALL` is
unset on entry to a supported-platform call, `process.env.LC_ALL = locale`
with `locale` equal to `undefined` sets `LC_ALL` to the literal string
`"undefined"` (Node coerces the assigned value to a string), so the call
ends with `LC_ALL` set — not restored to unset — on both the success and
the stderr-failure outcome.  The restore is exact whenever `LC_ALL` was
set on entry, and the call's outcome is independent of the entering value
(the external call observes only the cleared environment), so the claim
fails precisely at its "including the case where it is unset" clause. -/
theorem runAppleScript_locale_bug :
    (runAppleScript "darwin" none spawnProbe).2 = some "undefined" ∧
    (runAppleScript "darwin" none (fun _ => ⟨"", "boom"⟩)).2 = some "undefined" ∧
    (runAppleScript "darwin" none spawnProbe).2 ≠ none ∧
    (∀ (s : String) (spawnSync : Option String → SpawnResult),
        (runAppleScript "darwin" (some s) spawnSync).2 = some s) ∧
    (∀ (lcAll lcAll' : Option String) (spawnSync : Option String → SpawnResult),
        (runAppleScript "darwin" lcAll spawnSync).1 =
          (runAppleScript "darwin" lcAll' spawnSync).1) := by
  have hda : ¬ ("darwin" ≠ "darwin") := by decide
  refine ⟨by decide, by decide, by decide, ?_, ?_⟩
  · intro s sp
    simp only [runAppleScript]
    rw [if_neg hda]
    split <;> rfl
  · intro lc lc' sp
    simp only [runAppleScript]
    rw [if_neg hda]
    split <;> rfl

/-- C7 witness: the exact-restore part applied at a concrete set locale. -/
theorem runAppleScript_locale_bug_witness :
    (runAppleScript "darwin" (some "en_US.UTF-8") spawnProbe).2 =
      some "en_US.UTF-8" :=
  runAppleScript_locale_bug.2.2.2.1 "en_US.UTF-8" spawnProbe

/-- The full candidate list of the mapper's search, in iteration order:
roots outermost, variants innermost, two joined candidates per pair. -/
def allCandidates (roots : List String) (vars : List (List String)) : List String :=
  roots.flatMap fun root => vars.flatMap fun v => candidatesFor root v

theorem tryCandidates_eq_find (fs : FS) (cs : List String) :
    tryCandidates fs cs = cs.find? fun c => fs.statIsFile c == some true := by
  induction cs with
  | nil => rfl
  | cons c rest ih =>
    simp only [tryCandidates]
    cases hc : fs.statIsFile c with
    | none =>
      rw [List.find?_cons_of_neg _ (by simp [hc])]
      exact ih
    | some b =>
      cases b with
      | false =>
        rw [List.find?_cons_of_neg _ (by simp [hc])]
        exact ih
      | true =>
        rw [List.find?_cons_of_pos _ (by simp [hc])]

theorem searchVariants_eq_find (fs : FS) (root : String) (vars : List (List String)) :
    searchVariants fs root vars =
      (vars.flatMap fun v => candidatesFor root v).find?
        fun c => fs.statIsFile c == some true := by
  induction vars with
  | nil => rfl
  | cons v vs ih =>
    simp only [searchVariants]
    rw [List.flatMap_cons, List.find?_append, tryCandidates_eq_find]
    cases hf : (candidatesFor root v).find? fun c => fs.statIsFile c == some true with
    | none =>
      rw [ih]
      rfl
    | some c => rfl

theorem searchRoots_eq_find (fs : FS) (vars : List (List String)) (roots : List String) :
    searchRoots fs vars roots =
      (allCandidates roots vars).find? fun c => fs.statIsFile c == some true := by
  induction roots with
  | nil => rfl
  | cons r rs ih =>
    simp only [searchRoots]
    unfold allCandidates
    rw [List.flatMap_cons, List.find?_append, searchVariants_eq_find]
    cases hf : ((vars.flatMap fun v => candidatesFor r v).find?
        fun c => fs.statIsFile c == some true) with
    | none =>
      rw [ih]
      rfl
    | some c => rfl

/-- C3: once the mapper reaches its search stage, it tries exactly the two
candidates `root/Documents/<variant>` then `root/<variant>` for every
discovered root (outer loop) and every variant (inner loop), returning the
first candidate whose stat succeeds and reports a regular file — a stat
error counts as a miss — and `none`, not an error, when the whole
root-by-variant product is exhausted. -/
theorem mapSharePointUrlToLocalPath_search_claim (fs : FS) (url : String)
    (parsed : UrlModel) (rel : List String)
    (h1 : urlParse url = some parsed)
    (h2 : containsSubstr parsed.hostname "sharepoint.com" = true)
    (h3 : sharePointRelativeSegments parsed.pathname = some rel) :
    mapSharePointUrlToLocalPath fs url =
      (allCandidates (getOneDriveRoots fs) (relativeVariants rel)).find?
        fun c => fs.statIsFile c == some true := by
  have hred : mapSharePointUrlToLocalPath fs url =
      searchRoots fs (relativeVariants rel) (getOneDriveRoots fs) := by
    unfold mapSharePointUrlToLocalPath
    rw [h1]
    show (if !containsSubstr parsed.hostname "sharepoint.com" then none
          else
            match sharePointRelativeSegments parsed.pathname with
            | none => none
            | some relativeSegments =>
              searchRoots fs (relativeVariants relativeSegments) (getOneDriveRoots fs)) =
        searchRoots fs (relativeVariants rel) (getOneDriveRoots fs)
    rw [if_neg (by simp [h2]), h3]
  rw [hred]
  exact searchRoots_eq_find fs (relativeVariants rel) (getOneDriveRoots fs)

/-- C3 witness: the end-to-end search on a concrete environment, hitting
the second candidate class and returning the synced file. -/
theorem mapSharePointUrlToLocalPath_search_claim_witness :
    mapSharePointUrlToLocalPath fsSynced
        "https://contoso.sharepoint.com/sites/Team/Documents/Reports/Q1.docx" =
      some "/Users/u/Library/CloudStorage/OneDrive-Contoso/Documents/Reports/Q1.docx" := by
  have h := mapSharePointUrlToLocalPath_search_claim fsSynced
    "https://contoso.sharepoint.com/sites/Team/Documents/Reports/Q1.docx"
    ⟨"https", "contoso.sharepoint.com", "/sites/Team/Documents/Reports/Q1.docx"⟩
    ["Reports", "Q1.docx"] (by decide) (by decide) (by decide)
  rw [h]
  decide

/-- C5: the mapper declines with `none` (never an error) when the input
does not parse as a URL, when the hostname lacks the `sharepoint.com`
marker, when no path segment equals `documents` case-insensitively, and
when the cloud-storage container cannot be read (zero sync roots). -/
theorem mapSharePointUrlToLocalPath_decline_claim (fs : FS) (url : String) :
    (urlParse url = none → mapSharePointUrlToLocalPath fs url = none) ∧
    (∀ parsed, urlParse url = some parsed →
      containsSubstr parsed.hostname "sharepoint.com" = false →
      mapSharePointUrlToLocalPath fs url = none) ∧
    (∀ parsed, urlParse url = some parsed →
      sharePointRelativeSegments parsed.pathname = none →
      mapSharePointUrlToLocalPath fs url = none) ∧
    (fs.cloudEntries = none → mapSharePointUrlToLocalPath fs url = none) := by
  refine ⟨?_, ?_, ?_, ?_⟩
  · intro h
    unfold mapSharePointUrlToLocalPath
    rw [h]
  · intro parsed h1 h2
    unfold mapSharePointUrlToLocalPath
    rw [h1]
    show (if !containsSubstr parsed.hostname "sharepoint.com" then none
          else
            match sharePointRelativeSegments parsed.pathname with
            | none => none
            | some relativeSegments =>
              searchRoots fs (relativeVariants relativeSegments) (getOneDriveRoots fs)) =
        none
    rw [if_pos (by simp [h2])]
  · intro parsed h1 h2
    unfold mapSharePointUrlToLocalPath
    rw [h1]
    show (if !containsSubstr parsed.hostname "sharepoint.com" then none
          else
            match sharePointRelativeSegments parsed.pathname with
            | none => none
            | some relativeSegments =>
              searchRoots fs (relativeVariants relativeSegments) (getOneDriveRoots fs)) =
        none
    rw [h2]
    split <;> rfl
  · intro h
    have hroots : getOneDriveRoots fs = [] := by
      unfold getOneDriveRoots
      rw [h]
    unfold mapSharePointUrlToLocalPath
    cases hu : urlParse url with
    | none => rfl
    | some parsed =>
      show (if !containsSubstr parsed.hostname "sharepoint.com" then none
            else
              match sharePointRelativeSegments parsed.pathname with
              | none => none
              | some relativeSegments =>
                searchRoots fs (relativeVariants relativeSegments) (getOneDriveRoots fs)) =
          none
      rw [hroots]
      split
      · rfl
      · cases sharePointRelativeSegments parsed.pathname <;> rfl

/-- C5 witness: the four decline scenarios at concrete inputs. -/
theorem mapSharePointUrlToLocalPath_decline_claim_witness :
    mapSharePointUrlToLocalPath fsSynced "not a url" = none ∧
    mapSharePointUrlToLocalPath fsSynced "https://example.com/sites/Documents/x.docx" = none ∧
    mapSharePointUrlToLocalPath fsSynced "https://contoso.sharepoint.com/teams/general" = none ∧
    mapSharePointUrlToLocalPath fs0
      "https://contoso.sharepoint.com/sites/Team/Documents/Reports/Q1.docx" = none := by
  refine ⟨?_, ?_, ?_, ?_⟩
  · exact (mapSharePointUrlToLocalPath_decline_claim fsSynced "not a url").1 (by decide)
  · exact (mapSharePointUrlToLocalPath_decline_claim fsSynced
      "https://example.com/sites/Documents/x.docx").2.1
      ⟨"https", "example.com", "/sites/Documents/x.docx"⟩ (by decide) (by decide)
  · exact (mapSharePointUrlToLocalPath_decline_claim fsSynced
      "https://contoso.sharepoint.com/teams/general").2.2.1
      ⟨"https", "contoso.sharepoint.com", "/teams/general"⟩ (by decide) (by decide)
  · exact (mapSharePointUrlToLocalPath_decline_claim fs0
      "https://contoso.sharepoint.com/sites/Team/Documents/Reports/Q1.docx").2.2.2
      (by decide)

/-- The split position, worded after the specification: the leftmost
date-pattern match or, only when no date pattern occurs anywhere, the
leftmost digit. -/
def splitIdx (lastSegment : String) : Option Nat :=
  match firstDateIdx lastSegment with
  | some i => some i
  | none => firstDigitIdx lastSegment

/-- The split of a final segment, worded after the specification: it
applies when the split position is strictly after the segment's start and
both trimmed parts are nonempty. -/
def splitOfLast (lastSegment : String) : Option (String × String) :=
  match splitIdx lastSegment with
  | some i =>
    if 0 < i then
      if sliceTrimBefore lastSegment i ≠ "" && sliceTrimFrom lastSegment i ≠ "" then
        some (sliceTrimBefore lastSegment i, sliceTrimFrom lastSegment i)
      else none
    else none
  | none => none

/-- The variant set, worded after the specification: the sequence as-is
always, plus the split variant exactly when the final segment splits. -/
def variantsSpec (segs : List String) : List (List String) :=
  match segs.getLast? with
  | none => [segs]
  | some lastSegment =>
    match splitOfLast lastSegment with
    | some (folderPart, filePart) => [segs, segs.dropLast ++ [folderPart, filePart]]
    | none => [segs]

/-- C4: the mapper builds the as-is variant always and the date/digit split
variant exactly under the specification's condition; in particular the
spec's example splits as required. -/
theorem relativeVariants_claim :
    (∀ segs, relativeVariants segs = variantsSpec segs) ∧
    relativeVariants ["Quarterly Report2024.03.15.docx"] =
      [["Quarterly Report2024.03.15.docx"], ["Quarterly Report", "2024.03.15.docx"]] := by
  constructor
  · intro segs
    cases hgl : segs.getLast? with
    | none =>
      have h1 : relativeVariants segs = [segs] := by
        unfold relativeVariants
        rw [hgl]
      have h2 : variantsSpec segs = [segs] := by
        unfold variantsSpec
        rw [hgl]
      rw [h1, h2]
    | some l =>
      have h1 : relativeVariants segs =
          (if l = "" then [segs]
           else
             match firstDateIdx l with
             | some i =>
               if i ≠ 0 then
                 if sliceTrimBefore l i ≠ "" && sliceTrimFrom l i ≠ "" then
                   [segs, segs.dropLast ++ [sliceTrimBefore l i, sliceTrimFrom l i]]
                 else [segs]
               else [segs]
             | none =>
               match firstDigitIdx l with
               | some i =>
                 if i ≠ 0 then
                   if sliceTrimBefore l i ≠ "" && sliceTrimFrom l i ≠ "" then
                     [segs, segs.dropLast ++ [sliceTrimBefore l i, sliceTrimFrom l i]]
                   else [segs]
                 else [segs]
               | none => [segs]) := by
        unfold relativeVariants
        rw [hgl]
      have h2 : variantsSpec segs =
          (match splitOfLast l with
           | some (folderPart, filePart) => [segs, segs.dropLast ++ [folderPart, filePart]]
           | none => [segs]) := by
        unfold variantsSpec
        rw [hgl]
      rw [h1, h2]
      by_cases hl : l = ""
      · rw [if_pos hl, hl]
        rfl
      · rw [if_neg hl]
        cases hdi : firstDateIdx l with
        | some i =>
          have hsi : splitIdx l = some i := by
            unfold splitIdx
            rw [hdi]
          have hs : splitOfLast l =
              (if 0 < i then
                if sliceTrimBefore l i ≠ "" && sliceTrimFrom l i ≠ "" then
                  some (sliceTrimBefore l i, sliceTrimFrom l i)
                else none
              else none) := by
            unfold splitOfLast
            rw [hsi]
          by_cases hi : i = 0
          · subst hi
            simp [hs]
          · have hgt := Nat.pos_of_ne_zero hi
            by_cases hbp : ¬sliceTrimBefore l i = "" ∧ ¬sliceTrimFrom l i = ""
            · simp [hs, hi, hgt, hbp]
            · simp [hs, hi, hgt, hbp]
        | none =>
          cases hgi : firstDigitIdx l with
          | some i =>
            have hsi : splitIdx l = some i := by
              unfold splitIdx
              rw [hdi]
              exact hgi
            have hs : splitOfLast l =
                (if 0 < i then
                  if sliceTrimBefore l i ≠ "" && sliceTrimFrom l i ≠ "" then
                    some (sliceTrimBefore l i, sliceTrimFrom l i)
                  else none
                else none) := by
              unfold splitOfLast
              rw [hsi]
            by_cases hi : i = 0
            · subst hi
              simp [hdi, hgi, hs]
            · have hgt := Nat.pos_of_ne_zero hi
              by_cases hbp : ¬sliceTrimBefore l i = "" ∧ ¬sliceTrimFrom l i = ""
              · simp [hdi, hgi, hs, hi, hgt, hbp]
              · simp [hdi, hgi, hs, hi, hgt, hbp]
          | none =>
            have hsi : splitIdx l = none := by
              unfold splitIdx
              rw [hdi]
              exact hgi
            have hs : splitOfLast l = none := by
              unfold splitOfLast
              rw [hsi]
            simp [hdi, hgi, hs]
  · decide

/-- The URL-shape condition exactly as the claim words it, with literal
(case-sensitive) matching against `http://`, `https://`, `http:` and
`https:`. -/
def urlShapedLiteral (s : String) : Bool :=
  jsStartsWith s "http://" || jsStartsWith s "https://" ||
  containsSubstr s "http:" || containsSubstr s "https:"

/-- C1 counterexample: the classification is not the claim's literal
condition — `HTTP://x` satisfies none of the four case-sensitive tests, yet
the code classifies it as URL-shaped (it lower-cases first) and attempts
cloud mapping, observably returning an empty resolved path instead of
echoing the document path. -/
theorem isProbablyUrlPath_case_counterexample :
    urlShapedLiteral "HTTP://x" = false ∧
    isProbablyUrlPath "HTTP://x" = true ∧
    getDocumentAppPath "HTTP://x" = some "HTTP://x" ∧
    resolveDocumentAppPathForOpen fs0 "HTTP://x" = some ("HTTP://x", "") := by decide

/-- C1 (amended): the classification applies the claim's four tests to the
lower-cased path (case-insensitively); when classified URL-shaped the
resolver returns the normalized path as `documentPath` and the mapped local
path — or `""` on no match, without raising — as `resolvedPath`, and
otherwise returns the path for both components. -/
theorem resolveDocumentAppPathForOpen_claim (fs : FS) (raw path : String)
    (h : getDocumentAppPath raw = some path) :
    (isProbablyUrlPath path = urlShapedLiteral (jsToLower path)) ∧
    (isProbablyUrlPath path = true →
      resolveDocumentAppPathForOpen fs raw =
        some (path, (mapSharePointUrlToLocalPath fs path).getD "")) ∧
    (isProbablyUrlPath path = false →
      resolveDocumentAppPathForOpen fs raw = some (path, path)) := by
  refine ⟨rfl, ?_, ?_⟩
  · intro hc
    unfold resolveDocumentAppPathForOpen
    rw [h]
    show (if isProbablyUrlPath path then
            some (path, (mapSharePointUrlToLocalPath fs path).getD "")
          else some (path, path)) = _
    rw [if_pos hc]
  · intro hc
    unfold resolveDocumentAppPathForOpen
    rw [h]
    show (if isProbablyUrlPath path then
            some (path, (mapSharePointUrlToLocalPath fs path).getD "")
          else some (path, path)) = _
    rw [if_neg (by simp [hc])]

/-- C1 witness: the spec's end-to-end scenario — a cloud URL with no local
match resolves to the pair (URL, empty string). -/
theorem resolveDocumentAppPathForOpen_claim_witness :
    resolveDocumentAppPathForOpen fs0
        "https://contoso.sharepoint.com/sites/Team/Documents/Reports/Q1.docx" =
      some ("https://contoso.sharepoint.com/sites/Team/Documents/Reports/Q1.docx", "") := by
  have h := (resolveDocumentAppPathForOpen_claim fs0
      "https://contoso.sharepoint.com/sites/Team/Documents/Reports/Q1.docx"
      "https://contoso.sharepoint.com/sites/Team/Documents/Reports/Q1.docx"
      (by decide)).2.1 (by decide)
  rw [h]
  decide

/-- C8: every identity of the document-application, file-manager and
terminal families has a script-building branch (the builders are total
functions), and each produced script is nonempty and mentions the
identity's display name. -/
theorem buildScript_claim :
    (∀ app : DocumentApp, buildDocumentPathScript app ≠ "" ∧
      containsSubstr (buildDocumentPathScript app) app.displayName = true) ∧
    (∀ fm : FileManager, buildFileManagerPathScript fm ≠ "" ∧
      containsSubstr (buildFileManagerPathScript fm) fm.displayName = true) ∧
    (∀ (t : Terminal) (fm : FileManager), applicationToFileManagerScript t fm ≠ "" ∧
      containsSubstr (applicationToFileManagerScript t fm) t.displayName = true) := by
  refine ⟨?_, ?_, ?_⟩
  · intro app
    cases app <;> exact ⟨by decide, by decide⟩
  · intro fm
    cases fm <;> exact ⟨by decide, by decide⟩
  · intro t fm
    cases t <;> cases fm <;> exact ⟨by decide, by decide⟩

/-! ## Character classes and round-trip lemmas for the file-URL claim -/

/-- Printable ASCII characters that survive host parsing unchanged. -/
def plainHostChar (c : Char) : Bool :=
  0x20 < c.toNat && c.toNat < 0x7F && !forbiddenHostChar c && c != '@'

/-- Printable ASCII characters that survive path serialization and
percent-decoding unchanged. -/
def plainPathChar (c : Char) : Bool :=
  0x20 < c.toNat && c.toNat < 0x7F && !pathEncodeChar c &&
  c != '?' && c != '#' && c != '\\' && c != '%'

/-- Printable ASCII (enough for query/fragment text that is discarded). -/
def plainTailChar (c : Char) : Bool := 0x20 < c.toNat && c.toNat < 0x7F

theorem dropWhile_eq_self_of_all {α} {p : α → Bool} {l : List α}
    (h : ∀ c ∈ l, p c = false) : l.dropWhile p = l := by
  cases l with
  | nil => rfl
  | cons a t => exact List.dropWhile_cons_of_neg (by simp [h a (by simp)])

theorem not_jsWs_of_bounds {c : Char} (h1 : 0x20 < c.toNat) (h2 : c.toNat < 0x7F) :
    isJsWs c = false := by
  cases hw : isJsWs c with
  | false => rfl
  | true =>
    exfalso
    unfold isJsWs at hw
    simp only [Bool.or_eq_true, decide_eq_true_eq] at hw
    rcases hw with (((((((e | e) | e) | e) | e) | e) | e) | e) <;> subst e <;>
      first
        | exact absurd h1 (by decide)
        | exact absurd h2 (by decide)

theorem not_ctl_of_bounds {c : Char} (h1 : 0x20 < c.toNat) :
    (c != '\t' && c != '\n' && c != '\x0d') = true := by
  have t1 : c ≠ '\t' := fun e => absurd h1 (by subst e; decide)
  have t2 : c ≠ '\n' := fun e => absurd h1 (by subst e; decide)
  have t3 : c ≠ '\x0d' := fun e => absurd h1 (by subst e; decide)
  simp [t1, t2, t3]

theorem not_le_space_of_bounds {c : Char} (h1 : 0x20 < c.toNat) :
    decide (c.toNat ≤ 0x20) = false := by
  simp
  omega

theorem urlPre_eq_self {l : List Char} (h : ∀ c ∈ l, 0x20 < c.toNat) : urlPre l = l := by
  unfold urlPre
  rw [filter_all_eq (fun c hc => not_ctl_of_bounds (h c hc))]
  rw [dropWhile_eq_self_of_all (fun c hc => not_le_space_of_bounds (h c hc))]
  rw [dropWhile_eq_self_of_all
    (fun c hc => not_le_space_of_bounds (h c (List.mem_reverse.1 hc)))]
  exact List.reverse_reverse l

theorem jsTrim_eq_self_of_all {s : String} (h : ∀ c ∈ s.data, isJsWs c = false) :
    jsTrim s = s := by
  unfold jsTrim
  rw [jsTrimList_all_not h]

theorem charUtf8Bytes_ascii {c : Char} (h : c.toNat < 0x80) :
    charUtf8Bytes c = [c.toNat] := by
  unfold charUtf8Bytes
  rw [if_pos h]

theorem percentDecodeChars_cons_ne {c : Char} (hc : c ≠ '%') (t : List Char) :
    percentDecodeChars (c :: t) =
      (percentDecodeChars t).map (fun bs => charUtf8Bytes c ++ bs) := by
  rw [percentDecodeChars.eq_def]
  simp [hc]

theorem percentDecode_ascii {cs : List Char}
    (h : ∀ c ∈ cs, c.toNat < 0x80 ∧ c ≠ '%') :
    percentDecodeChars cs = some (cs.map Char.toNat) := by
  induction cs with
  | nil => rfl
  | cons c t ih =>
    rw [percentDecodeChars_cons_ne (h c (by simp)).2]
    rw [ih (fun c hc => h c (by simp [hc]))]
    rw [charUtf8Bytes_ascii (h c (by simp)).1]
    rfl

theorem utf8DecodeFuel_cons_lt {b : Nat} (hb : b < 0x80) (fuel : Nat) (rest : List Nat) :
    utf8DecodeFuel (fuel + 1) (b :: rest) =
      (utf8DecodeFuel fuel rest).map (fun cs => Char.ofNat b :: cs) := by
  simp only [utf8DecodeFuel]
  rw [if_pos hb]

theorem utf8Decode_ascii {cs : List Char} (h : ∀ c ∈ cs, c.toNat < 0x80) :
    utf8DecodeFuel (cs.map Char.toNat).length (cs.map Char.toNat) = some cs := by
  induction cs with
  | nil => rfl
  | cons c t ih =>
    rw [List.map_cons, List.length_cons]
    rw [utf8DecodeFuel_cons_lt (h c (by simp))]
    rw [ih (fun c hc => h c (by simp [hc]))]
    simp [Char.ofNat_toNat]

theorem decodeURIComponent_plain_ascii {p : String}
    (h : ∀ c ∈ p.data, c.toNat < 0x80 ∧ c ≠ '%') :
    decodeURIComponent p = some p := by
  unfold decodeURIComponent utf8DecodeList
  rw [percentDecode_ascii h]
  simp only [Option.some_bind]
  rw [utf8Decode_ascii (fun c hc => (h c hc).1)]
  rfl

theorem pathEncode_all_plain {cs : List Char}
    (h : ∀ c ∈ cs, pathEncodeChar c = false) : pathEncode cs = cs := by
  induction cs with
  | nil => rfl
  | cons c t ih =>
    unfold pathEncode
    rw [List.flatMap_cons, if_neg (by simp [h c (by simp)])]
    have ih' := ih (fun c hc => h c (by simp [hc]))
    unfold pathEncode at ih'
    rw [ih']
    rfl

theorem plainHost_facts {c : Char} (h : plainHostChar c = true) :
    0x20 < c.toNat ∧ c.toNat < 0x7F ∧ forbiddenHostChar c = false ∧ c ≠ '@' := by
  unfold plainHostChar at h
  simp only [Bool.and_eq_true, decide_eq_true_eq, Bool.not_eq_true', bne_iff_ne] at h
  exact ⟨h.1.1.1, h.1.1.2, h.1.2, h.2⟩

theorem plainHost_notAuthorityEnd {c : Char} (h : plainHostChar c = true) :
    notAuthorityEnd c = true := by
  obtain ⟨_, _, hforb, _⟩ := plainHost_facts h
  have n1 : c ≠ '/' := fun e => by subst e; exact absurd hforb (by decide)
  have n2 : c ≠ '\\' := fun e => by subst e; exact absurd hforb (by decide)
  have n3 : c ≠ '?' := fun e => by subst e; exact absurd hforb (by decide)
  have n4 : c ≠ '#' := fun e => by subst e; exact absurd hforb (by decide)
  unfold notAuthorityEnd isSlash
  simp [n1, n2, n3, n4]

theorem plainHost_ne_colon {c : Char} (h : plainHostChar c = true) : (c != ':') = true := by
  obtain ⟨_, _, hforb, _⟩ := plainHost_facts h
  have : c ≠ ':' := fun e => by subst e; exact absurd hforb (by decide)
  simpa using this

theorem plainHost_ne_at {c : Char} (h : plainHostChar c = true) : (c != '@') = true := by
  obtain ⟨_, _, _, hat⟩ := plainHost_facts h
  simpa using hat

theorem parseHostPort_plain {hst : List Char} (hh : ∀ c ∈ hst, plainHostChar c = true) :
    parseHostPort hst = some (hst.map lowerChar) := by
  simp only [parseHostPort]
  rw [takeWhile_all_eq (fun c hc => plainHost_ne_at (hh c (List.mem_reverse.1 hc)))]
  rw [List.reverse_reverse]
  rw [takeWhile_all_eq (fun c hc => plainHost_ne_colon (hh c hc))]
  rw [dropWhile_all_nil (fun c hc => plainHost_ne_colon (hh c hc))]
  have hall : hst.all (fun c => !forbiddenHostChar c) = true := by
    rw [List.all_eq_true]
    intro c hc
    obtain ⟨_, _, hforb, _⟩ := plainHost_facts (hh c hc)
    simp [hforb]
  rw [if_pos (by simp [hall])]

theorem plainPath_facts {c : Char} (h : plainPathChar c = true) :
    0x20 < c.toNat ∧ c.toNat < 0x7F ∧ pathEncodeChar c = false ∧
      c ≠ '?' ∧ c ≠ '#' ∧ c ≠ '\\' ∧ c ≠ '%' := by
  unfold plainPathChar at h
  simp only [Bool.and_eq_true, decide_eq_true_eq, Bool.not_eq_true', bne_iff_ne] at h
  exact ⟨h.1.1.1.1.1.1, h.1.1.1.1.1.2, h.1.1.1.1.2, h.1.1.1.2, h.1.1.2, h.1.2, h.2⟩

theorem plainPath_notPathEnd {c : Char} (h : plainPathChar c = true) :
    notPathEnd c = true := by
  obtain ⟨_, _, _, h1, h2, _, _⟩ := plainPath_facts h
  unfold notPathEnd
  simp [h1, h2]

theorem makePathname_plain {p : String} {tail : List Char}
    (hp0 : p.data.head? = some '/')
    (hp : ∀ c ∈ p.data, plainPathChar c = true)
    (htail0 : tail = [] ∨ tail.head? = some '?') :
    makePathname (p.data ++ tail) = p.data := by
  obtain ⟨pd, hpd⟩ : ∃ pd, p.data = '/' :: pd := by
    cases hd : p.data with
    | nil => rw [hd] at hp0; exact absurd hp0 (by simp)
    | cons a t =>
      rw [hd] at hp0
      have : a = '/' := by simpa using hp0
      exact ⟨t, by rw [this]⟩
  have hTW : (p.data ++ tail).takeWhile notPathEnd = p.data := by
    rw [takeWhile_append_all (fun c hc => plainPath_notPathEnd (hp c hc))]
    rcases htail0 with ht | ht
    · rw [ht]
      simp
    · cases htl : tail with
      | nil => simp
      | cons a t' =>
        rw [htl] at ht
        have ha : a = '?' := by simpa using ht
        subst ha
        rw [List.takeWhile_cons_of_neg (by decide)]
        simp
  unfold makePathname
  rw [hTW]
  rw [map_all_eq (fun c hc => if_neg (plainPath_facts (hp c hc)).2.2.2.2.2.1)]
  show pathEncode (if p.data = [] then ['/'] else p.data) = p.data
  rw [if_neg (by rw [hpd]; simp)]
  exact pathEncode_all_plain (fun c hc => (plainPath_facts (hp c hc)).2.2.1)

theorem parseFileUrl_plain {hstr p : String} {tail : List Char}
    (hh : ∀ c ∈ hstr.data, plainHostChar c = true)
    (hp0 : p.data.head? = some '/')
    (hp : ∀ c ∈ p.data, plainPathChar c = true)
    (htail0 : tail = [] ∨ tail.head? = some '?') :
    ∃ hostOut, parseFileUrl ('/' :: '/' :: (hstr.data ++ (p.data ++ tail))) =
      some ⟨"file", hostOut, p⟩ := by
  obtain ⟨pd, hpd⟩ : ∃ pd, p.data = '/' :: pd := by
    cases hd : p.data with
    | nil => rw [hd] at hp0; exact absurd hp0 (by simp)
    | cons a t =>
      rw [hd] at hp0
      have : a = '/' := by simpa using hp0
      exact ⟨t, by rw [this]⟩
  have hA : (hstr.data ++ (p.data ++ tail)).takeWhile notAuthorityEnd = hstr.data := by
    rw [takeWhile_append_all (fun c hc => plainHost_notAuthorityEnd (hh c hc))]
    rw [hpd, List.cons_append, List.takeWhile_cons_of_neg (by decide)]
    simp
  have hB : (hstr.data ++ (p.data ++ tail)).dropWhile notAuthorityEnd = p.data ++ tail := by
    rw [dropWhile_append_all (fun c hc => plainHost_notAuthorityEnd (hh c hc))]
    rw [hpd, List.cons_append, List.dropWhile_cons_of_neg (by decide)]
  have hred : parseFileUrl ('/' :: '/' :: (hstr.data ++ (p.data ++ tail))) =
      (match parseHostPort ((hstr.data ++ (p.data ++ tail)).takeWhile notAuthorityEnd) with
       | none => none
       | some host =>
         some ⟨"file", String.mk (if host = "localhost".data then [] else host),
           String.mk
             (makePathname ((hstr.data ++ (p.data ++ tail)).dropWhile notAuthorityEnd))⟩) :=
    rfl
  rw [hred, hA, hB, parseHostPort_plain hh, makePathname_plain hp0 hp htail0]
  exact ⟨String.mk (if hstr.data.map lowerChar = "localhost".data then []
    else hstr.data.map lowerChar), rfl⟩

theorem normalize_fileUrl_master (hstr p : String) (tail : List Char)
    (hh : ∀ c ∈ hstr.data, plainHostChar c = true)
    (hp0 : p.data.head? = some '/')
    (hp : ∀ c ∈ p.data, plainPathChar c = true)
    (htail0 : tail = [] ∨ tail.head? = some '?')
    (htail : ∀ c ∈ tail, 0x20 < c.toNat ∧ c.toNat < 0x7F) :
    normalizeFileManagerResult
      (String.mk ('f' :: 'i' :: 'l' :: 'e' :: ':' :: '/' :: '/' ::(hstr.data ++ (p.data ++ tail)))) =
      p := by
  have hchars : ∀ c ∈ ('f' :: 'i' :: 'l' :: 'e' :: ':' :: '/' :: '/' ::(hstr.data ++ (p.data ++ tail))),
      0x20 < c.toNat ∧ c.toNat < 0x7F := by
    intro c hc
    simp only [List.mem_cons, List.mem_append] at hc
    rcases hc with e | e | e | e | e | e | e | hc | hc | hc
    · subst e; exact ⟨by decide, by decide⟩
    · subst e; exact ⟨by decide, by decide⟩
    · subst e; exact ⟨by decide, by decide⟩
    · subst e; exact ⟨by decide, by decide⟩
    · subst e; exact ⟨by decide, by decide⟩
    · subst e; exact ⟨by decide, by decide⟩
    · subst e; exact ⟨by decide, by decide⟩
    · exact ⟨(plainHost_facts (hh c hc)).1, (plainHost_facts (hh c hc)).2.1⟩
    · exact ⟨(plainPath_facts (hp c hc)).1, (plainPath_facts (hp c hc)).2.1⟩
    · exact htail c hc
  have htrim : jsTrim (String.mk
      ('f' :: 'i' :: 'l' :: 'e' :: ':' :: '/' :: '/' ::(hstr.data ++ (p.data ++ tail)))) =
      String.mk ('f' :: 'i' :: 'l' :: 'e' :: ':' :: '/' :: '/' ::(hstr.data ++ (p.data ++ tail))) :=
    jsTrim_eq_self_of_all (fun c hc =>
      not_jsWs_of_bounds (hchars c hc).1 (hchars c hc).2)
  have hne : jsTrim (String.mk
      ('f' :: 'i' :: 'l' :: 'e' :: ':' :: '/' :: '/' ::(hstr.data ++ (p.data ++ tail)))) ≠ "" := by
    rw [htrim]
    intro e
    have := congrArg String.data e
    simp at this
  have hnm : jsTrim (String.mk
      ('f' :: 'i' :: 'l' :: 'e' :: ':' :: '/' :: '/' ::(hstr.data ++ (p.data ++ tail)))) ≠
      "missing value" := by
    rw [htrim]
    exact string_ne_of_head rfl rfl (by decide)
  have hsw : jsStartsWith (jsTrim (String.mk
      ('f' :: 'i' :: 'l' :: 'e' :: ':' :: '/' :: '/' ::(hstr.data ++ (p.data ++ tail))))) "file://" =
      true := by
    rw [htrim]
    unfold jsStartsWith
    exact List.isPrefixOf_iff_prefix.2 ⟨hstr.data ++ (p.data ++ tail), rfl⟩
  rw [normalize_file_case hne hnm hsw, htrim]
  have hup : urlParse (String.mk
      ('f' :: 'i' :: 'l' :: 'e' :: ':' :: '/' :: '/' ::(hstr.data ++ (p.data ++ tail)))) =
      parseFileUrl ('/' :: '/' ::(hstr.data ++ (p.data ++ tail))) := by
    unfold urlParse
    rw [show (String.mk
        ('f' :: 'i' :: 'l' :: 'e' :: ':' :: '/' :: '/' ::(hstr.data ++ (p.data ++ tail)))).data =
        'f' :: 'i' :: 'l' :: 'e' :: ':' :: '/' :: '/' ::(hstr.data ++ (p.data ++ tail)) from rfl]
    rw [urlPre_eq_self (fun c hc => (hchars c hc).1)]
    rw [splitScheme_file]
    simp
  rw [hup]
  obtain ⟨hostOut, hpf⟩ := parseFileUrl_plain hh hp0 hp htail0
  rw [hpf]
  have hdec : decodeURIComponent p = some p :=
    decodeURIComponent_plain_ascii (fun c hc =>
      ⟨by have := (plainPath_facts (hp c hc)).2.1; omega,
        (plainPath_facts (hp c hc)).2.2.2.2.2.2⟩)
  simp [hdec]

/-- C10: for a trimmed `file://` URL that parses, the normalizer returns
only the decoded path component — the host/authority, the query and the
fragment are discarded and never appear in the result.  Formalized over
well-formed components: for every plain host `hstr`, absolute plain path
`p`, and plain query/fragment text `q`/`f`, both `file://<host><path>` and
`file://<host><path>?<query>#<fragment>` normalize to exactly the path. -/
theorem normalize_fileUrl_discards_claim (hstr p q f : String)
    (hh : hstr.data.all plainHostChar = true)
    (hp0 : p.data.head? = some '/')
    (hp : p.data.all plainPathChar = true)
    (hq : q.data.all plainTailChar = true)
    (hf : f.data.all plainTailChar = true) :
    normalizeFileManagerResult ("file://" ++ hstr ++ p) = p ∧
    normalizeFileManagerResult ("file://" ++ hstr ++ p ++ "?" ++ q ++ "#" ++ f) = p := by
  have hh' : ∀ c ∈ hstr.data, plainHostChar c = true := List.all_eq_true.1 hh
  have hp' : ∀ c ∈ p.data, plainPathChar c = true := List.all_eq_true.1 hp
  have hq' : ∀ c ∈ q.data, 0x20 < c.toNat ∧ c.toNat < 0x7F := fun c hc => by
    have := List.all_eq_true.1 hq c hc
    unfold plainTailChar at this
    simp only [Bool.and_eq_true, decide_eq_true_eq] at this
    exact this
  have hf' : ∀ c ∈ f.data, 0x20 < c.toNat ∧ c.toNat < 0x7F := fun c hc => by
    have := List.all_eq_true.1 hf c hc
    unfold plainTailChar at this
    simp only [Bool.and_eq_true, decide_eq_true_eq] at this
    exact this
  constructor
  · have hm := normalize_fileUrl_master hstr p [] hh' hp0 hp' (Or.inl rfl) (by simp)
    have hdata : ("file://" ++ hstr ++ p).data =
        'f' :: 'i' :: 'l' :: 'e' :: ':' :: '/' :: '/' ::(hstr.data ++ (p.data ++ [])) := by
      simp only [String.data_append]
      simp [List.append_assoc]
    have hstr0 : ("file://" ++ hstr ++ p) =
        String.mk ('f' :: 'i' :: 'l' :: 'e' :: ':' :: '/' :: '/' ::(hstr.data ++ (p.data ++ []))) :=
      congrArg String.mk hdata
    rw [hstr0]
    exact hm
  · have htail0 : ('?' :: (q.data ++ '#' :: f.data)) = [] ∨
        ('?' :: (q.data ++ '#' :: f.data)).head? = some '?' := Or.inr rfl
    have htailc : ∀ c ∈ ('?' :: (q.data ++ '#' :: f.data)),
        0x20 < c.toNat ∧ c.toNat < 0x7F := by
      intro c hc
      simp only [List.mem_cons, List.mem_append] at hc
      rcases hc with e | hc | e | hc
      · subst e; exact ⟨by decide, by decide⟩
      · exact hq' c hc
      · subst e; exact ⟨by decide, by decide⟩
      · exact hf' c hc
    have hm := normalize_fileUrl_master hstr p ('?' :: (q.data ++ '#' :: f.data))
      hh' hp0 hp' htail0 htailc
    have hdata : ("file://" ++ hstr ++ p ++ "?" ++ q ++ "#" ++ f).data =
        'f' :: 'i' :: 'l' :: 'e' :: ':' :: '/' :: '/' ::
          (hstr.data ++ (p.data ++ ('?' :: (q.data ++ '#' :: f.data)))) := by
      simp only [String.data_append]
      simp [List.append_assoc]
    have hstr0 : ("file://" ++ hstr ++ p ++ "?" ++ q ++ "#" ++ f) =
        String.mk ('f' :: 'i' :: 'l' :: 'e' :: ':' :: '/' :: '/' ::
          (hstr.data ++ (p.data ++ ('?' :: (q.data ++ '#' :: f.data))))) :=
      congrArg String.mk hdata
    rw [hstr0]
    exact hm

/-- C10 witness: the spec's `file://server/share/x.txt` example, with and
without a query and fragment. -/
theorem normalize_fileUrl_discards_claim_witness :
    normalizeFileManagerResult "file://server/share/x.txt" = "/share/x.txt" ∧
    normalizeFileManagerResult "file://server/share/x.txt?q=1#frag" = "/share/x.txt" := by
  have h := normalize_fileUrl_discards_claim "server" "/share/x.txt" "q=1" "frag"
    (by decide) (by decide) (by decide) (by decide) (by decide)
  exact ⟨h.1, h.2⟩

/-- C8 witness: the claim instantiated at concrete members of each
family. -/
theorem buildScript_claim_witness :
    (buildDocumentPathScript DocumentApp.preview ≠ "" ∧
      containsSubstr (buildDocumentPathScript DocumentApp.preview) "Preview" = true) ∧
    (buildFileManagerPathScript FileManager.finder ≠ "" ∧
      containsSubstr (buildFileManagerPathScript FileManager.finder) "Finder" = true) ∧
    (applicationToFileManagerScript Terminal.iterm FileManager.finder ≠ "" ∧
      containsSubstr (applicationToFileManagerScript Terminal.iterm FileManager.finder)
        "iTerm" = true) :=
  ⟨buildScript_claim.1 DocumentApp.preview,
    buildScript_claim.2.1 FileManager.finder,
    buildScript_claim.2.2 Terminal.iterm FileManager.finder⟩
